import Mathlib

/-!
# Strontium: frame orchestration and event dispatch

A shallow embedding of `engine/src/Core/Application.cpp`, of the event types
and the dispatcher of `engine/include/Core/Events.h`, of the constructor and
`init` of `src/Graphics/GraphicsContext.cpp`, of `setData` of the uniform and
shader-storage buffers of `engine/src/Graphics/Buffers.cpp`, of the batch
builders of `src/Buffers.cpp`, and of the type switching of
`engine/src/Graphics/EditorCamera.cpp`.

The run loop talks to collaborators whose code is not in these two files
(layers, the ImGui overlay, the window, the renderer commands, the asynchronous
asset loader).  Every call into a collaborator is recorded in a trace, and what
the callee does is supplied by an environment: it may change an external state
of an arbitrary type `σ` and it may queue events on the dispatcher.
Collaborators reach the dispatcher through `queueEvent` only (the run loop is
the single consumer) and do not write the flags of the application object.
The time type `τ` is kept abstract (the source uses `float`); only its
subtraction is used.

The drain loop of `dispatchEvents` need not terminate (a handler may queue an
event each time it is called), so the loops take fuel, and a loop that runs
out of fuel returns the state it reached.
-/

namespace Strontium

/-! ## Events (`Core/Events.h`) -/

/-- The closed enumeration `EventType` of `Events.h`. -/
inductive EventType
  | KeyPressedEvent | KeyReleasedEvent | KeyTypedEvent | MouseClickEvent
  | MouseReleasedEvent | MouseScrolledEvent | WindowCloseEvent | WindowResizeEvent
  | OpenDialogueEvent | LoadFileEvent | SaveFileEvent | GuiEvent | EntitySwapEvent
  | EntityDeleteEvent
  deriving DecidableEq, Repr

/-- The class `Event`: its type tag and the numeric arguments its subclass
was constructed with.  The `name` string is read by no code of the run loop
and is left out. -/
structure Event where
  type : EventType
  payload : List Int
  deriving DecidableEq, Repr

/-- The accessor `Event::getType`. -/
def Event.getType (e : Event) : EventType := e.type

/-- Modelled from the spec: the constructor bodies live in `Events.cpp`, which
is not among the sources; `WindowResizeEvent(width, height)` is the event
tagged `EventType::WindowResizeEvent` carrying the two dimensions. -/
def WindowResizeEvent (width height : Nat) : Event :=
  { type := EventType.WindowResizeEvent, payload := [(width : Int), (height : Int)] }

/-- Modelled from the spec: `WindowCloseEvent()` from `Events.cpp` (missing),
the event tagged `EventType::WindowCloseEvent`. -/
def WindowCloseEvent : Event :=
  { type := EventType.WindowCloseEvent, payload := [] }

/-- Modelled from the spec: `KeyPressedEvent(keyCode, repeat)` from
`Events.cpp` (missing), the event tagged `EventType::KeyPressedEvent`. -/
def KeyPressedEvent (keyCode : Int) (numRepeat : Nat) : Event :=
  { type := EventType.KeyPressedEvent, payload := [keyCode, (numRepeat : Int)] }

/-- Modelled from the spec: `GuiEvent(type, text)` from `Events.cpp` (missing),
the event tagged `EventType::GuiEvent`; the payload keeps the `GuiEventType`
as its ordinal. -/
def GuiEvent (guiEventType : Nat) : Event :=
  { type := EventType.GuiEvent, payload := [(guiEventType : Int)] }

/-! ## The event dispatcher (`Core/Events.h`) -/

/-- The class `EventDispatcher`: `std::queue<Event*> eventQueue`, front of the
queue first. -/
structure EventDispatcher where
  eventQueue : List Event
  deriving DecidableEq, Repr

/-- The inline `isEmpty`: `return this->eventQueue.empty();`. -/
def EventDispatcher.isEmpty (d : EventDispatcher) : Bool :=
  d.eventQueue.isEmpty

/-- Modelled from the spec: `queueEvent` is declared in `Events.h` and defined
in `Events.cpp` (missing); it "appends to the tail of the internal queue". -/
def EventDispatcher.queueEvent (d : EventDispatcher) (toAdd : Event) : EventDispatcher :=
  { eventQueue := d.eventQueue ++ [toAdd] }

/-- Modelled from the spec: `dequeueEvent` is declared in `Events.h` and
defined in `Events.cpp` (missing); it "removes and returns the head of the
queue" and is undefined on an empty queue (`none`). -/
def EventDispatcher.dequeueEvent (d : EventDispatcher) : Option (Event × EventDispatcher) :=
  match d.eventQueue with
  | [] => none
  | event :: rest => some (event, { eventQueue := rest })

/-! ## Layers, calls and the environment -/

/-- A `Layer*`: the layer is identified by its name; what its virtual hooks do
is given by the environment. -/
structure Layer where
  name : String
  deriving DecidableEq, Repr

/-- The calls the application makes, as they are recorded in the trace: those
of the run loop, then those of the pushes, of the constructor and of the
destructor. -/
inductive Call (τ : Type)
  | onUpdate (layer : Layer) (deltaTime : τ)
  | beginImGui
  | onImGuiRender (layer : Layer)
  | endImGui
  | dequeueEvent (event : Event)
  | appOnEvent (event : Event)
  | onEvent (layer : Layer) (event : Event)
  | deleteEvent (event : Event)
  | windowOnUpdate
  | clear
  | bulkGenerateTextures
  | bulkGenerateMaterials
  | stackPushLayer (layer : Layer)
  | stackPushOverlay (layer : Layer)
  | onAttach (layer : Layer)
  | onDetach (layer : Layer)
  | deleteLayer (layer : Layer)
  | startupServices
  | rendererInit
  | rendererShutdown
  | deleteEventDispatcher
  | deleteLogger
  deriving DecidableEq, Repr

/-- The collaborators of the run loop.  `effect c s` is what the callee of the
collaborator call `c` does in external state `s`: the new external state and
the events it hands to `queueEvent`, in order.  `getSize` is
`Window::getSize` read off the external state. -/
structure Env (τ σ : Type) where
  effect : Call τ → σ → σ × List Event
  getSize : σ → Int × Int

/-- The class `Application`: the flags and timestamp of the run loop and the
layer stack in iteration order; `overlayBoundary` is the partition point of
the stack, the number of regular layers in it. -/
structure Application (τ : Type) where
  running : Bool
  isMinimized : Bool
  lastTime : τ
  layerStack : List Layer
  overlayBoundary : Nat := 0

/-- Everything the run loop acts on: the application object, the dispatcher
singleton, the external state of the collaborators, and the trace of calls. -/
structure World (τ σ : Type) where
  app : Application τ
  appEvents : EventDispatcher
  ext : σ
  trace : List (Call τ)

/-- How a loop of the model can end: normally, stuck for lack of fuel (with
the state reached), or in the undefined dequeue from an empty queue. -/
inductive Result (α : Type)
  | done (a : α)
  | outOfFuel (a : α)
  | fault

variable {τ σ : Type}

/-- Append a call of the application's own code to the trace. -/
def record (c : Call τ) (w : World τ σ) : World τ σ :=
  { w with trace := w.trace ++ [c] }

/-- Perform a collaborator call: it is recorded, the callee updates the
external state, and the events it queues go through `queueEvent`. -/
def call (env : Env τ σ) (c : Call τ) (w : World τ σ) : World τ σ :=
  let r := env.effect c w.ext
  { w with
    ext := r.1
    appEvents := r.2.foldl EventDispatcher.queueEvent w.appEvents
    trace := w.trace ++ [c] }

/-! ## `Application.cpp` -/

/-- `Application::close`: `this->running = false;`. -/
def Application.close (w : World τ σ) : World τ σ :=
  { w with app := { w.app with running := false } }

/-- `Application::onWindowResize`: the size is read from the window, and
`isMinimized` is set from it. -/
def Application.onWindowResize (env : Env τ σ) (w : World τ σ) : World τ σ :=
  let windowSize := env.getSize w.ext
  if windowSize.1 == 0 || windowSize.2 == 0 then
    { w with app := { w.app with isMinimized := true } }
  else
    { w with app := { w.app with isMinimized := false } }

/-- `Application::onEvent`: two independent tests on the type of the event. -/
def Application.onEvent (env : Env τ σ) (event : Event) (w : World τ σ) : World τ σ :=
  let w := if event.getType == EventType.WindowResizeEvent then
    Application.onWindowResize env w else w
  if event.getType == EventType.WindowCloseEvent then Application.close w else w

/-- The body of the `while` loop of `Application::dispatchEvents`: dequeue the
first event, give it to the application, then to every layer in stack order,
then delete it. -/
def dispatchIteration (env : Env τ σ) (w : World τ σ) : Option (World τ σ) :=
  match w.appEvents.dequeueEvent with
  | none => none
  | some (event, rest) =>
    let w := record (Call.dequeueEvent event) { w with appEvents := rest }
    let w := Application.onEvent env event (record (Call.appOnEvent event) w)
    let w := w.app.layerStack.foldl (fun w layer => call env (Call.onEvent layer event) w) w
    some (record (Call.deleteEvent event) w)

/-- `Application::dispatchEvents`: `while (!appEvents->isEmpty())` around the
loop body, with one unit of fuel per iteration. -/
def dispatchEvents (env : Env τ σ) : Nat → World τ σ → Result (World τ σ)
  | 0, w => if w.appEvents.isEmpty then Result.done w else Result.outOfFuel w
  | fuel + 1, w =>
    if w.appEvents.isEmpty then Result.done w
    else
      match dispatchIteration env w with
      | none => Result.fault
      | some w => dispatchEvents env fuel w

/-- The asset-finalize tail of a frame: `AsyncLoading::bulkGenerateTextures`
then `AsyncLoading::bulkGenerateMaterials`. -/
def finalizeAssets (env : Env τ σ) (w : World τ σ) : World τ σ :=
  call env Call.bulkGenerateMaterials (call env Call.bulkGenerateTextures w)

/-- One iteration of the `while (this->running)` loop of `Application::run`;
`currentTime` is the value `appWindow->getTime()` returns in this frame and
`fuel` bounds the iterations of the drain loop. -/
def runFrame [Sub τ] (env : Env τ σ) (fuel : Nat) (currentTime : τ) (w : World τ σ) :
    Result (World τ σ) :=
  let deltaTime := currentTime - w.app.lastTime
  let w := { w with app := { w.app with lastTime := currentTime } }
  if !w.app.isMinimized then
    let w := w.app.layerStack.foldl (fun w layer => call env (Call.onUpdate layer deltaTime) w) w
    let w := call env Call.beginImGui w
    let w := w.app.layerStack.foldl (fun w layer => call env (Call.onImGuiRender layer) w) w
    let w := call env Call.endImGui w
    match dispatchEvents env fuel w with
    | Result.done w =>
      let w := call env Call.windowOnUpdate w
      let w := call env Call.clear w
      Result.done (finalizeAssets env w)
    | Result.outOfFuel w => Result.outOfFuel w
    | Result.fault => Result.fault
  else
    Result.done (finalizeAssets env w)

/-- `Application::run`: frames are executed while `running` holds; `clock`
lists the times the window reports, one per frame. -/
def run [Sub τ] (env : Env τ σ) (fuel : Nat) : List τ → World τ σ → Result (World τ σ)
  | [], w => if w.app.running then Result.outOfFuel w else Result.done w
  | currentTime :: clock, w =>
    if w.app.running then
      match runFrame env fuel currentTime w with
      | Result.done w => run env fuel clock w
      | Result.outOfFuel w => Result.outOfFuel w
      | Result.fault => Result.fault
    else Result.done w

/-- The state of a frame that is not minimized when it enters the drain:
`lastTime` stored, every layer updated, the ImGui pass done. -/
def beforeDrain [Sub τ] (env : Env τ σ) (currentTime : τ) (w : World τ σ) : World τ σ :=
  let deltaTime := currentTime - w.app.lastTime
  let w := { w with app := { w.app with lastTime := currentTime } }
  let w := w.app.layerStack.foldl (fun w layer => call env (Call.onUpdate layer deltaTime) w) w
  let w := call env Call.beginImGui w
  let w := w.app.layerStack.foldl (fun w layer => call env (Call.onImGuiRender layer) w) w
  call env Call.endImGui w

/-- The end of a frame that is not minimized, after the drain: window update,
clear, asset finalize. -/
def afterDrain (env : Env τ σ) (w : World τ σ) : World τ σ :=
  finalizeAssets env (call env Call.clear (call env Call.windowOnUpdate w))

/-! ## The expected traces -/

/-- The calls made for one dequeued event. -/
def eventBlock (layers : List Layer) (event : Event) : List (Call τ) :=
  [Call.dequeueEvent event, Call.appOnEvent event]
    ++ layers.map (fun layer => Call.onEvent layer event)
    ++ [Call.deleteEvent event]

/-- The calls made by a drain that dequeues the events `events` in order. -/
def drainTrace (layers : List Layer) : List Event → List (Call τ)
  | [] => []
  | event :: events => eventBlock layers event ++ drainTrace layers events

/-- The calls of a frame that is not minimized and dequeues `events`. -/
def frameTrace (layers : List Layer) (deltaTime : τ) (events : List Event) : List (Call τ) :=
  layers.map (fun layer => Call.onUpdate layer deltaTime)
    ++ [Call.beginImGui]
    ++ layers.map (fun layer => Call.onImGuiRender layer)
    ++ [Call.endImGui]
    ++ drainTrace layers events
    ++ [Call.windowOnUpdate, Call.clear, Call.bulkGenerateTextures, Call.bulkGenerateMaterials]

/-- The events the callees of the collaborator calls `calls`, made in this
order from external state `s`, hand to `queueEvent`. -/
def emitted (env : Env τ σ) : List (Call τ) → σ → List Event
  | [], _ => []
  | c :: calls, s => (env.effect c s).2 ++ emitted env calls (env.effect c s).1

/-- The two calls of the asset-finalize pass. -/
def Call.isFinalize : Call τ → Bool
  | Call.bulkGenerateTextures => true
  | Call.bulkGenerateMaterials => true
  | _ => false

/-- The events a trace shows as dequeued, in order. -/
def dequeued (trace : List (Call τ)) : List Event :=
  trace.filterMap (fun c => match c with
    | Call.dequeueEvent e => some e
    | _ => none)

/-- The events a trace shows as given to `Application::onEvent`, in order. -/
def deliveredToApp (trace : List (Call τ)) : List Event :=
  trace.filterMap (fun c => match c with
    | Call.appOnEvent e => some e
    | _ => none)

/-- The events a trace shows as given to the `onEvent` of `layer`, in order. -/
def deliveredTo (layer : Layer) (trace : List (Call τ)) : List Event :=
  trace.filterMap (fun c => match c with
    | Call.onEvent l e => if l = layer then some e else none
    | _ => none)

/-- An environment in which the layer `editor` answers a key press by queueing
a `GuiEvent`; nothing else queues. -/
def requeueEnv : Env Int Unit :=
  { effect := fun c s => match c with
      | Call.onEvent l e =>
        if l = ⟨"editor"⟩ ∧ e.getType = EventType.KeyPressedEvent then (s, [GuiEvent 0])
        else (s, [])
      | _ => (s, [])
    getSize := fun _ => (1600, 900) }

/-- No `onEvent` hook of a layer queues an event. -/
def HandlersQuiet (env : Env τ σ) : Prop :=
  ∀ (layer : Layer) (event : Event) (s : σ), (env.effect (Call.onEvent layer event) s).2 = []

/-- No collaborator call queues an event. -/
def NoQueueing (env : Env τ σ) : Prop :=
  ∀ (c : Call τ) (s : σ), (env.effect c s).2 = []

/-- An environment whose collaborators do nothing. -/
def idleEnv (size : Int × Int) : Env Int Unit :=
  { effect := fun _ s => (s, []), getSize := fun _ => size }

/-- A world for the examples: running, the given flag, stack and queue. -/
def mkWorld (isMinimized : Bool) (layers : List Layer) (queue : List Event) : World Int Unit :=
  { app := { running := true, isMinimized := isMinimized, lastTime := 0, layerStack := layers }
    appEvents := { eventQueue := queue }
    ext := ()
    trace := [] }

/-- The state a loop reached, when it did not fault. -/
def Result.state? {α : Type} : Result α → Option α
  | Result.done a => some a
  | Result.outOfFuel a => some a
  | Result.fault => none

/-! ## The layer stack, construction and teardown -/

/-- Modelled from the spec: the class `LayerStack`, whose header and source
are not among the sources: an "ordered sequence partitioned into
`[regular layers...][overlay layers...]`", kept as the sequence and the index
of the partition point. -/
structure LayerStack where
  layers : List Layer
  overlayBoundary : Nat
  deriving DecidableEq, Repr

/-- Modelled from the spec: `LayerStack::pushLayer` (missing) "inserts before
the overlay boundary"; the boundary moves one place up. -/
def LayerStack.pushLayer (s : LayerStack) (layer : Layer) : LayerStack :=
  { layers := s.layers.take s.overlayBoundary ++ layer :: s.layers.drop s.overlayBoundary
    overlayBoundary := s.overlayBoundary + 1 }

/-- Modelled from the spec: `LayerStack::pushOverlay` (missing) "inserts at the
end (after all overlays too)". -/
def LayerStack.pushOverlay (s : LayerStack) (overlay : Layer) : LayerStack :=
  { layers := s.layers ++ [overlay], overlayBoundary := s.overlayBoundary }

/-- The member `layerStack` of the application as a `LayerStack`. -/
def Application.stack (app : Application τ) : LayerStack :=
  { layers := app.layerStack, overlayBoundary := app.overlayBoundary }

/-- `Application::pushLayer`: `this->layerStack.pushLayer(layer);` then
`layer->onAttach();`. -/
def Application.pushLayer (env : Env τ σ) (layer : Layer) (w : World τ σ) : World τ σ :=
  let s := w.app.stack.pushLayer layer
  let w := record (Call.stackPushLayer layer)
    { w with app := { w.app with layerStack := s.layers, overlayBoundary := s.overlayBoundary } }
  call env (Call.onAttach layer) w

/-- `Application::pushOverlay`: `this->layerStack.pushOverlay(overlay);` then
`overlay->onAttach();`. -/
def Application.pushOverlay (env : Env τ σ) (overlay : Layer) (w : World τ σ) : World τ σ :=
  let s := w.app.stack.pushOverlay overlay
  let w := record (Call.stackPushOverlay overlay)
    { w with app := { w.app with layerStack := s.layers, overlayBoundary := s.overlayBoundary } }
  call env (Call.onAttach overlay) w

/-- A push on the application: a regular layer or an overlay. -/
inductive Push
  | layer (l : Layer)
  | overlay (l : Layer)
  deriving DecidableEq, Repr

/-- A sequence of pushes on a `LayerStack`, in order. -/
def LayerStack.pushAll : List Push → LayerStack → LayerStack
  | [], s => s
  | Push.layer l :: ops, s => LayerStack.pushAll ops (s.pushLayer l)
  | Push.overlay l :: ops, s => LayerStack.pushAll ops (s.pushOverlay l)

/-- A sequence of calls of `Application::pushLayer` and
`Application::pushOverlay`, in order. -/
def Application.pushAll (env : Env τ σ) : List Push → World τ σ → World τ σ
  | [], w => w
  | Push.layer l :: ops, w => Application.pushAll env ops (Application.pushLayer env l w)
  | Push.overlay l :: ops, w => Application.pushAll env ops (Application.pushOverlay env l w)

/-- The layers a sequence of pushes pushes as regular layers, in order. -/
def regulars : List Push → List Layer
  | [] => []
  | Push.layer l :: ops => l :: regulars ops
  | Push.overlay _ :: ops => regulars ops

/-- The layers a sequence of pushes pushes as overlays, in order. -/
def overlays : List Push → List Layer
  | [] => []
  | Push.layer _ :: ops => overlays ops
  | Push.overlay l :: ops => l :: overlays ops

/-- The calls of the teardown loop over the layers `layers`. -/
def detachTrace : List Layer → List (Call τ)
  | [] => []
  | layer :: layers => Call.onDetach layer :: Call.deleteLayer layer :: detachTrace layers

/-- The null pointer; object addresses are natural numbers. -/
def nullptr : Nat := 0

/-- The macro `assert` of `<cassert>`: execution goes on when the condition
holds, and always when `NDEBUG` is defined; otherwise the process aborts. -/
def assertPasses (ndebug : Bool) (condition : Bool) : Bool :=
  ndebug || condition

/-- How a constructor call of `Application` ends: the process aborted, or the
object was built, with the value of `Application::appInstance` afterwards.
Both carry what was written to `std::cout`. -/
inductive Construction (τ σ : Type)
  | aborted (stdout : List String)
  | constructed (appInstance : Nat) (stdout : List String) (w : World τ σ)

/-- `Application::Application`: the member initialisers, the test on
`appInstance` with its message and its `assert`, the assignment
`appInstance = this`, the start of the services (logs, window, thread pool,
asset caches, shaders, default assets: one call here), the push of the ImGui
overlay and the start of the renderer.  `appInstance` is the static pointer on
entry, `this` the address of the object under construction, `imLayer` the
layer made by `new ImGuiLayer()`. -/
def Application.new [Zero τ] (env : Env τ σ) (ndebug : Bool) (appInstance this : Nat)
    (imLayer : Layer) (appEvents : EventDispatcher) (ext : σ) (trace : List (Call τ)) :
    Construction τ σ :=
  let app : Application τ :=
    { running := true, isMinimized := false, lastTime := 0, layerStack := [] }
  let stdout :=
    if appInstance != nullptr then ["Already have an instance of the application. Aborting"]
    else []
  if appInstance != nullptr && !assertPasses ndebug (appInstance != nullptr) then
    Construction.aborted stdout
  else
    let appInstance := this
    let w : World τ σ := { app := app, appEvents := appEvents, ext := ext, trace := trace }
    let w := call env Call.startupServices w
    let w := Application.pushOverlay env imLayer w
    let w := call env Call.rendererInit w
    Construction.constructed appInstance stdout w

/-- `Application::~Application`: every layer of the stack is detached and
deleted, the renderer is shut down, the dispatcher and the logs are deleted. -/
def Application.destroy (env : Env τ σ) (w : World τ σ) : World τ σ :=
  let w := w.app.layerStack.foldl
    (fun w layer => record (Call.deleteLayer layer) (call env (Call.onDetach layer) w)) w
  let w := call env Call.rendererShutdown w
  let w := record Call.deleteEventDispatcher w
  record Call.deleteLogger w

/-- The calls `Application::run` makes (directly or in `dispatchEvents`). -/
def Call.inRunLoop : Call τ → Bool
  | Call.onUpdate _ _ => true
  | Call.beginImGui => true
  | Call.onImGuiRender _ => true
  | Call.endImGui => true
  | Call.dequeueEvent _ => true
  | Call.appOnEvent _ => true
  | Call.onEvent _ _ => true
  | Call.deleteEvent _ => true
  | Call.windowOnUpdate => true
  | Call.clear => true
  | Call.bulkGenerateTextures => true
  | Call.bulkGenerateMaterials => true
  | _ => false

/-- Consecutive iterations of the loop of `Application::run`, one per sampled
time, each of which returns; the result lists the `deltaTime` of each frame
and gives the state after the last one. -/
def runFrames [Sub τ] (env : Env τ σ) (fuel : Nat) :
    List τ → World τ σ → Option (List τ × World τ σ)
  | [], w => some ([], w)
  | currentTime :: clock, w =>
    if w.app.running then
      match runFrame env fuel currentTime w with
      | Result.done w1 =>
        (runFrames env fuel clock w1).map
          (fun p => ((currentTime - w.app.lastTime) :: p.1, p.2))
      | _ => none
    else none

/-! ## The dispatcher as a sequence of operations -/

/-- Modelled from the spec: `EventDispatcher::getInstance` (defined in the
missing `Events.cpp`) creates the singleton "lazily on first use"; its queue
starts empty. -/
def EventDispatcher.getInstance : EventDispatcher :=
  { eventQueue := [] }

/-- The three public operations of the dispatcher. -/
inductive DispatcherOp
  | queueEvent (toAdd : Event)
  | dequeueEvent
  | isEmpty
  deriving DecidableEq, Repr

/-- One operation on the dispatcher: the dispatcher afterwards and, for
`isEmpty`, the value returned; `none` is the undefined dequeue from an empty
queue. -/
def EventDispatcher.perform (d : EventDispatcher) :
    DispatcherOp → Option (EventDispatcher × Option Bool)
  | DispatcherOp.queueEvent toAdd => some (d.queueEvent toAdd, none)
  | DispatcherOp.dequeueEvent =>
    match d.dequeueEvent with
    | none => none
    | some (_, rest) => some (rest, none)
  | DispatcherOp.isEmpty => some (d, some d.isEmpty)

/-- A sequence of operations on the dispatcher, with the values the `isEmpty`
calls returned, in order. -/
def EventDispatcher.performAll :
    List DispatcherOp → EventDispatcher → Option (EventDispatcher × List Bool)
  | [], d => some (d, [])
  | op :: ops, d =>
    match d.perform op with
    | none => none
    | some (d1, out) =>
      match EventDispatcher.performAll ops d1 with
      | none => none
      | some (d2, outs) => some (d2, out.toList ++ outs)

/-- The number of `queueEvent` calls in a sequence of operations. -/
def queueCount : List DispatcherOp → Nat
  | [] => 0
  | DispatcherOp.queueEvent _ :: ops => queueCount ops + 1
  | _ :: ops => queueCount ops

/-- The number of `dequeueEvent` calls in a sequence of operations. -/
def dequeueCount : List DispatcherOp → Nat
  | [] => 0
  | DispatcherOp.dequeueEvent :: ops => dequeueCount ops + 1
  | _ :: ops => dequeueCount ops

/-! ## `Graphics/GraphicsContext.cpp` -/

/-- The macro `EXIT_FAILURE` of `<cstdlib>`. -/
def EXIT_FAILURE : Nat := 1

/-- The class `GraphicsContext`: the window handle (an address) and the
information string. -/
structure GraphicsContext where
  glfwWindowRef : Nat
  contextInfo : String
  deriving DecidableEq, Repr

/-- How a call that may end the process ends: it returns, or the process
exits with a status; both carry what was written to `std::cout`. -/
inductive Exit (α : Type)
  | returned (a : α) (stdout : List String)
  | exited (status : Nat) (stdout : List String)
  deriving DecidableEq, Repr

/-- `GraphicsContext::GraphicsContext`: the handle is stored; a null handle
ends the process with `EXIT_FAILURE`. -/
def GraphicsContext.new (genWindow : Nat) : Exit GraphicsContext :=
  let this : GraphicsContext := { glfwWindowRef := genWindow, contextInfo := "" }
  if this.glfwWindowRef == nullptr then
    Exit.exited EXIT_FAILURE ["Window was nullptr, aborting."]
  else
    Exit.returned this []

/-- `GraphicsContext::init`: `loaded` is what `gladLoadGLLoader` returns;
`vendor`, `renderer` and `version` are the strings `glGetString` gives.  A
failed load ends the process with `EXIT_FAILURE`; otherwise the three lines
are printed and `contextInfo` is set. -/
def GraphicsContext.init (loaded : Bool) (vendor renderer version : String)
    (this : GraphicsContext) : Exit GraphicsContext :=
  if !loaded then
    Exit.exited EXIT_FAILURE ["Failed to load a graphics context!"]
  else
    Exit.returned
      { this with
        contextInfo := "Graphics device vendor: " ++ vendor
          ++ "\nGraphics device: " ++ renderer
          ++ "\nGraphics context version: " ++ version }
      ["Graphics device vendor: " ++ vendor,
       "Graphics device: " ++ renderer,
       "Graphics context version: " ++ version]

/-- The calls of `n` consecutive frames that start minimized. -/
def minimizedTrace : Nat → List (Call τ)
  | 0 => []
  | n + 1 => Call.bulkGenerateTextures :: Call.bulkGenerateMaterials :: minimizedTrace n

/-! ## `engine/src/Graphics/Buffers.cpp`: `setData` -/

/-- The buffer targets of the two classes. -/
inductive GLTarget
  | uniformBuffer
  | shaderStorageBuffer
  deriving DecidableEq, Repr

/-- The OpenGL calls `setData` makes. -/
inductive GLCall
  | bindBuffer (target : GLTarget) (buffer : Nat)
  | bufferSubData (target : GLTarget) (offset size : Nat)
  deriving DecidableEq, Repr

/-- The class `UniformBuffer`: the buffer name, its size in bytes (an
`unsigned`) and the `filled` flag. -/
structure UniformBuffer where
  bufferID : Nat
  dataSize : Nat
  filled : Bool
  deriving DecidableEq, Repr

/-- The class `ShaderStorageBuffer`: the buffer name, its size in bytes (an
`unsigned`) and the `filled` flag. -/
structure ShaderStorageBuffer where
  bufferID : Nat
  dataSize : Nat
  filled : Bool
  deriving DecidableEq, Repr

/-- `UniformBuffer::setData`: the assertion on `start + newDataSize`, computed
in `uint` (32 bits), then bind, `glBufferSubData`, unbind, and `filled` set.
`none` is the abort of a failed assertion. -/
def UniformBuffer.setData (ndebug : Bool) (start newDataSize : Nat) (this : UniformBuffer) :
    Option (UniformBuffer × List GLCall) :=
  if assertPasses ndebug (!decide ((start + newDataSize) % 2 ^ 32 > this.dataSize)) then
    some ({ this with filled := true },
      [GLCall.bindBuffer GLTarget.uniformBuffer this.bufferID,
       GLCall.bufferSubData GLTarget.uniformBuffer start newDataSize,
       GLCall.bindBuffer GLTarget.uniformBuffer 0])
  else none

/-- `ShaderStorageBuffer::setData`: the same assertion, then bind,
`glBufferSubData`, unbind, and `filled` set. -/
def ShaderStorageBuffer.setData (ndebug : Bool) (start newDataSize : Nat)
    (this : ShaderStorageBuffer) : Option (ShaderStorageBuffer × List GLCall) :=
  if assertPasses ndebug (!decide ((start + newDataSize) % 2 ^ 32 > this.dataSize)) then
    some ({ this with filled := true },
      [GLCall.bindBuffer GLTarget.shaderStorageBuffer this.bufferID,
       GLCall.bufferSubData GLTarget.shaderStorageBuffer start newDataSize,
       GLCall.bindBuffer GLTarget.shaderStorageBuffer 0])
  else none

/-! ## `src/Buffers.cpp`: the batch buffers, and `include/Meshes.h` -/

/-- The class `Mesh` of `Meshes.h`, with the two members the batch builders
read: the vertices (of a type `V`, the struct `Vertex`) and the indices
(`GLuint`). -/
structure Mesh (V : Type) where
  data : List V
  indices : List Nat

/-- The getter `Mesh::getData` declared in `Meshes.h`; its body is in
`Meshes.cpp`, which is not among the sources, and is taken to return the
member `data`. -/
def Mesh.getData {V : Type} (mesh : Mesh V) : List V := mesh.data

/-- The getter `Mesh::getIndices` declared in `Meshes.h`; its body is in
`Meshes.cpp`, which is not among the sources, and is taken to return the
member `indices`. -/
def Mesh.getIndices {V : Type} (mesh : Mesh V) : List Nat := mesh.indices

/-- `buildBatchVBuffer`: the vector `batchData` handed to the vertex buffer,
every vertex of every mesh pushed back in order. -/
def buildBatchVBuffer {V : Type} (loadedMeshes : List (Mesh V)) : List V :=
  loadedMeshes.foldl
    (fun batchData mesh => mesh.getData.foldl (fun batchData vertex => batchData ++ [vertex])
      batchData) []

/-- The two nested loops of `buildBatchIBuffer` from given `batchIndices` and
`offset`: every index is pushed back as `index + offset` (in `GLuint`), and
after each mesh `offset += mesh->getIndices().size()` (in `unsigned`). -/
def batchIndicesLoop {V : Type} (loadedMeshes : List (Mesh V)) (batchIndices : List Nat)
    (offset : Nat) : List Nat × Nat :=
  loadedMeshes.foldl
    (fun state mesh =>
      (mesh.getIndices.foldl
          (fun batchIndices index => batchIndices ++ [(index + state.2) % 2 ^ 32]) state.1,
        (state.2 + mesh.getIndices.length) % 2 ^ 32))
    (batchIndices, offset)

/-- `buildBatchIBuffer`: the vector `batchIndices` handed to the index buffer;
the loops start from no index and `offset = 0`. -/
def buildBatchIBuffer {V : Type} (loadedMeshes : List (Mesh V)) : List Nat :=
  (batchIndicesLoop loadedMeshes [] 0).1

/-- The batched indices as the code computes them, mesh by mesh: the indices
of a mesh shifted by `offset`, then the later meshes with `offset` raised by
the number of indices of this mesh. -/
def shiftedIndices {V : Type} : List (Mesh V) → Nat → List Nat
  | [], _ => []
  | mesh :: meshes, offset =>
    mesh.indices.map (fun index => (index + offset) % 2 ^ 32)
      ++ shiftedIndices meshes ((offset + mesh.indices.length) % 2 ^ 32)

/-- The batched indices of the claim: the indices of a mesh shifted by the
number of vertices of the meshes before it. -/
def vertexShiftedIndices {V : Type} : List (Mesh V) → Nat → List Nat
  | [], _ => []
  | mesh :: meshes, vertexOffset =>
    mesh.indices.map (fun index => index + vertexOffset)
      ++ vertexShiftedIndices meshes (vertexOffset + mesh.data.length)

/-- A quad: four vertices, six indices. -/
def quadMesh : Mesh String :=
  { data := ["q0", "q1", "q2", "q3"], indices := [0, 1, 2, 2, 3, 0] }

/-- A triangle: three vertices, three indices. -/
def triangleMesh : Mesh String :=
  { data := ["t0", "t1", "t2"], indices := [0, 1, 2] }

/-! ## `engine/src/Graphics/EditorCamera.cpp`: the camera type -/

/-- The enumeration `EditorCameraType` (declared in `EditorCamera.h`, which is
not among the sources): the two values the source names. -/
inductive EditorCameraType
  | Stationary
  | Free
  deriving DecidableEq, Repr

/-- Modelled from the spec: `MouseClickEvent(mouseCode)` from `Events.cpp`
(missing), the event tagged `EventType::MouseClickEvent` carrying the button. -/
def MouseClickEvent (mouseCode : Int) : Event :=
  { type := EventType.MouseClickEvent, payload := [mouseCode] }

/-- Modelled from the spec: `MouseReleasedEvent(mouseCode)` from `Events.cpp`
(missing), the event tagged `EventType::MouseReleasedEvent` carrying the
button. -/
def MouseReleasedEvent (mouseCode : Int) : Event :=
  { type := EventType.MouseReleasedEvent, payload := [mouseCode] }

/-- The inline `getButton` of `MouseClickEvent` and `MouseReleasedEvent`:
`return this->mouseCode;`. -/
def Event.getButton (e : Event) : Int := e.payload.headD 0

/-- The inline `getKeyCode` of `KeyPressedEvent`: `return this->keyCode;`. -/
def Event.getKeyCode (e : Event) : Int := e.payload.headD 0

/-- The camera and what its handlers touch.  `φ` is the type of the mouse
coordinates (`float`), `π` holds the position, pivot, front vector and view
matrix, which only the zoom changes here.  The window gives the cursor
position and the state of keys and mouse buttons, and takes the cursor
capture; the logs take the messages. -/
structure EditorCamera (φ π : Type) where
  currentType : EditorCameraType
  lastMouseX : φ
  lastMouseY : φ
  pose : π
  cursorCapture : Bool
  cursorPos : φ × φ
  isKeyPressed : Int → Bool
  isMouseClicked : Int → Bool
  logs : List String

/-- The key and button codes of `KeyCodes.h` (not among the sources) the
handlers compare with, and `cameraZoom` with the test `offsets.y != 0.0`
of `onMouseScroll`, which act on floating-point data. -/
structure CameraEnv (π : Type) where
  SR_MOUSE_BUTTON_RIGHT : Int
  SR_KEY_P : Int
  SR_KEY_LEFT_ALT : Int
  scrolls : Event → Bool
  cameraZoom : Event → π → π

/-- Modelled from the spec: `EditorCamera::isStationary` is declared in
`EditorCamera.h` (missing); "the camera is Stationary". -/
def EditorCamera.isStationary {φ π : Type} (this : EditorCamera φ π) : Bool :=
  this.currentType == EditorCameraType.Stationary

/-- `EditorCamera::swap`: Stationary becomes Free with the cursor captured;
anything else becomes Stationary with the cursor released and the last mouse
position taken from the window. -/
def EditorCamera.swap {φ π : Type} (this : EditorCamera φ π) : EditorCamera φ π :=
  if this.currentType == EditorCameraType.Stationary then
    { this with
      currentType := EditorCameraType.Free
      cursorCapture := true
      logs := this.logs ++ ["Swapped camera to free-form."] }
  else
    { this with
      currentType := EditorCameraType.Stationary
      cursorCapture := false
      logs := this.logs ++ ["Swapped camera to stationary."]
      lastMouseX := this.cursorPos.1
      lastMouseY := this.cursorPos.2 }

/-- `EditorCamera::onMouseClick`: a swap when the button is the right one and
the camera is stationary. -/
def EditorCamera.onMouseClick {φ π : Type} (env : CameraEnv π) (mouseEvent : Event)
    (this : EditorCamera φ π) : EditorCamera φ π :=
  let mouseButton := mouseEvent.getButton
  if mouseButton == env.SR_MOUSE_BUTTON_RIGHT && this.isStationary then this.swap else this

/-- `EditorCamera::onMouseReleased`: a swap when the button is the right one
and the camera is not stationary. -/
def EditorCamera.onMouseReleased {φ π : Type} (env : CameraEnv π) (mouseEvent : Event)
    (this : EditorCamera φ π) : EditorCamera φ π :=
  let mouseButton := mouseEvent.getButton
  if mouseButton == env.SR_MOUSE_BUTTON_RIGHT && !this.isStationary then this.swap else this

/-- `EditorCamera::onKeyPress`: a swap on the key P with the left Alt key
down and the right mouse button up. -/
def EditorCamera.onKeyPress {φ π : Type} (env : CameraEnv π) (keyEvent : Event)
    (this : EditorCamera φ π) : EditorCamera φ π :=
  let keyCode := keyEvent.getKeyCode
  if keyCode == env.SR_KEY_P && this.isKeyPressed env.SR_KEY_LEFT_ALT
      && !this.isMouseClicked env.SR_MOUSE_BUTTON_RIGHT then this.swap
  else this

/-- `EditorCamera::onMouseScroll`: a stationary camera zooms when the scroll
has a vertical offset and the left Alt key is down. -/
def EditorCamera.onMouseScroll {φ π : Type} (env : CameraEnv π) (mouseEvent : Event)
    (this : EditorCamera φ π) : EditorCamera φ π :=
  match this.currentType with
  | EditorCameraType.Stationary =>
    if env.scrolls mouseEvent && this.isKeyPressed env.SR_KEY_LEFT_ALT then
      { this with pose := env.cameraZoom mouseEvent this.pose }
    else this
  | _ => this

/-- `EditorCamera::onEvent`: the switch on the type of the event. -/
def EditorCamera.onEvent {φ π : Type} (env : CameraEnv π) (event : Event)
    (this : EditorCamera φ π) : EditorCamera φ π :=
  match event.getType with
  | EventType.MouseScrolledEvent => this.onMouseScroll env event
  | EventType.KeyPressedEvent => this.onKeyPress env event
  | EventType.MouseClickEvent => this.onMouseClick env event
  | EventType.MouseReleasedEvent => this.onMouseReleased env event
  | _ => this

/-- A camera environment for the examples, with the codes of GLFW. -/
def glfwCameraEnv : CameraEnv Unit :=
  { SR_MOUSE_BUTTON_RIGHT := 1, SR_KEY_P := 80, SR_KEY_LEFT_ALT := 342,
    scrolls := fun _ => true, cameraZoom := fun _ p => p }

/-- A camera for the examples: the given type, no key or button down. -/
def mkCamera (type : EditorCameraType) : EditorCamera Int Unit :=
  { currentType := type, lastMouseX := 0, lastMouseY := 0, pose := (),
    cursorCapture := false, cursorPos := (640, 360),
    isKeyPressed := fun _ => false, isMouseClicked := fun _ => false, logs := [] }

/-! ## Basic facts about the dispatcher and about calls -/

theorem queueEvent_foldl_eventQueue (events : List Event) (d : EventDispatcher) :
    (events.foldl EventDispatcher.queueEvent d).eventQueue = d.eventQueue ++ events := by
  induction events generalizing d with
  | nil => simp
  | cons e es ih => simp [List.foldl, ih, EventDispatcher.queueEvent]

theorem isEmpty_iff (d : EventDispatcher) : d.isEmpty = true ↔ d.eventQueue = [] := by
  simp [EventDispatcher.isEmpty, List.isEmpty_iff]

@[simp] theorem record_trace (c : Call τ) (w : World τ σ) :
    (record c w).trace = w.trace ++ [c] := rfl

@[simp] theorem record_app (c : Call τ) (w : World τ σ) : (record c w).app = w.app := rfl

@[simp] theorem record_appEvents (c : Call τ) (w : World τ σ) :
    (record c w).appEvents = w.appEvents := rfl

@[simp] theorem record_ext (c : Call τ) (w : World τ σ) : (record c w).ext = w.ext := rfl

@[simp] theorem call_trace (env : Env τ σ) (c : Call τ) (w : World τ σ) :
    (call env c w).trace = w.trace ++ [c] := rfl

@[simp] theorem call_app (env : Env τ σ) (c : Call τ) (w : World τ σ) :
    (call env c w).app = w.app := rfl

theorem call_eventQueue (env : Env τ σ) (c : Call τ) (w : World τ σ) :
    (call env c w).appEvents.eventQueue
      = w.appEvents.eventQueue ++ (env.effect c w.ext).2 := by
  simp [call, queueEvent_foldl_eventQueue]

theorem emitted_eq_nil (env : Env τ σ) (calls : List (Call τ)) (s : σ)
    (h : ∀ c ∈ calls, ∀ s, (env.effect c s).2 = []) : emitted env calls s = [] := by
  induction calls generalizing s with
  | nil => rfl
  | cons c cs ih =>
    simp only [emitted, h c (List.mem_cons_self c cs), List.nil_append]
    exact ih _ (fun c hc => h c (List.mem_cons_of_mem _ hc))

/-- A pass over the layer stack: one call per layer in stack order, the
application object untouched, the queue extended at its tail by what the
callees queued. -/
theorem foldl_call (env : Env τ σ) (f : Layer → Call τ) (layers : List Layer) (w : World τ σ) :
    (layers.foldl (fun w layer => call env (f layer) w) w).trace = w.trace ++ layers.map f
    ∧ (layers.foldl (fun w layer => call env (f layer) w) w).app = w.app
    ∧ (layers.foldl (fun w layer => call env (f layer) w) w).appEvents.eventQueue
        = w.appEvents.eventQueue ++ emitted env (layers.map f) w.ext := by
  induction layers generalizing w with
  | nil => exact ⟨by simp, rfl, by simp [emitted]⟩
  | cons l ls ih =>
    obtain ⟨h1, h2, h3⟩ := ih (call env (f l) w)
    refine ⟨by simp [List.foldl, h1], by simp [List.foldl, h2], ?_⟩
    simp only [List.foldl, h3, call_eventQueue, List.map, emitted, List.append_assoc]
    rfl

@[simp] theorem onEvent_trace (env : Env τ σ) (e : Event) (w : World τ σ) :
    (Application.onEvent env e w).trace = w.trace := by
  simp only [Application.onEvent, Application.onWindowResize, Application.close]
  split_ifs <;> rfl

@[simp] theorem onEvent_appEvents (env : Env τ σ) (e : Event) (w : World τ σ) :
    (Application.onEvent env e w).appEvents = w.appEvents := by
  simp only [Application.onEvent, Application.onWindowResize, Application.close]
  split_ifs <;> rfl

@[simp] theorem onEvent_ext (env : Env τ σ) (e : Event) (w : World τ σ) :
    (Application.onEvent env e w).ext = w.ext := by
  simp only [Application.onEvent, Application.onWindowResize, Application.close]
  split_ifs <;> rfl

@[simp] theorem onEvent_layerStack (env : Env τ σ) (e : Event) (w : World τ σ) :
    (Application.onEvent env e w).app.layerStack = w.app.layerStack := by
  simp only [Application.onEvent, Application.onWindowResize, Application.close]
  split_ifs <;> rfl

/-- One iteration of the drain loop on a queue `e :: rest`, unfolded. -/
theorem dispatchIteration_eq (env : Env τ σ) (w : World τ σ) (e : Event) (rest : List Event)
    (hq : w.appEvents.eventQueue = e :: rest) :
    dispatchIteration env w = some (record (Call.deleteEvent e)
      (w.app.layerStack.foldl (fun w layer => call env (Call.onEvent layer e) w)
        (Application.onEvent env e (record (Call.appOnEvent e)
          (record (Call.dequeueEvent e) { w with appEvents := { eventQueue := rest } }))))) := by
  simp only [dispatchIteration, EventDispatcher.dequeueEvent, hq]
  simp only [onEvent_layerStack, record_app]

/-- What `Application::onEvent` can do to the minimized flag. -/
theorem onEvent_isMinimized_or (env : Env τ σ) (e : Event) (w : World τ σ) :
    (Application.onEvent env e w).app.isMinimized = w.app.isMinimized
      ∨ e.getType = EventType.WindowResizeEvent := by
  by_cases h : e.getType = EventType.WindowResizeEvent
  · exact Or.inr h
  · left
    simp only [Application.onEvent, Application.close, h, beq_iff_eq, if_false]
    split_ifs <;> rfl

/-- One iteration of the drain loop on a queue `e :: rest`: the block of calls
for `e` is appended, the queue loses its head and gains only what the layer
handlers queued. -/
theorem dispatchIteration_cons (env : Env τ σ) (w : World τ σ) (e : Event) (rest : List Event)
    (hq : w.appEvents.eventQueue = e :: rest) :
    ∃ w1, dispatchIteration env w = some w1
      ∧ w1.trace = w.trace ++ eventBlock w.app.layerStack e
      ∧ w1.app.layerStack = w.app.layerStack
      ∧ w1.appEvents.eventQueue = rest
          ++ emitted env (w.app.layerStack.map (fun layer => Call.onEvent layer e)) w.ext
      ∧ (w1.app.isMinimized = w.app.isMinimized ∨ e.getType = EventType.WindowResizeEvent) := by
  obtain ⟨h1, h2, h3⟩ := foldl_call env (fun layer => Call.onEvent layer e)
    w.app.layerStack
    (Application.onEvent env e (record (Call.appOnEvent e)
      (record (Call.dequeueEvent e) { w with appEvents := { eventQueue := rest } })))
  refine ⟨_, dispatchIteration_eq env w e rest hq, ?_, ?_, ?_, ?_⟩
  · simp [h1, eventBlock]
  · simp [h2]
  · simp [h3]
  · simp only [record_app, h2]
    exact onEvent_isMinimized_or env e _

theorem emitted_onEvent_quiet (env : Env τ σ) (hquiet : HandlersQuiet env)
    (layers : List Layer) (e : Event) (s : σ) :
    emitted env (layers.map (fun layer => Call.onEvent layer e)) s = [] := by
  apply emitted_eq_nil
  intro c hc s
  obtain ⟨l, _, rfl⟩ := List.mem_map.1 hc
  exact hquiet l e s

/-! ## The drain loop -/

theorem drainTrace_append (layers : List Layer) (xs ys : List Event) :
    (drainTrace layers (xs ++ ys) : List (Call τ))
      = drainTrace layers xs ++ drainTrace layers ys := by
  induction xs with
  | nil => simp [drainTrace]
  | cons x xs ih => simp [drainTrace, ih]

/-- Partial correctness of the drain: when it returns the queue is empty and
the trace grew by the blocks of the events that were queued at entry followed
by the blocks of the events queued meanwhile. -/
theorem dispatchEvents_done (env : Env τ σ) (fuel : Nat) (w r : World τ σ)
    (h : dispatchEvents env fuel w = Result.done r) :
    r.appEvents.eventQueue = []
    ∧ r.app.layerStack = w.app.layerStack
    ∧ ∃ more, r.trace = w.trace ++ drainTrace w.app.layerStack (w.appEvents.eventQueue ++ more)
      ∧ (HandlersQuiet env → more = [])
      ∧ (r.app.isMinimized = w.app.isMinimized
          ∨ ∃ e ∈ w.appEvents.eventQueue ++ more, e.getType = EventType.WindowResizeEvent) := by
  induction fuel generalizing w with
  | zero =>
    simp only [dispatchEvents] at h
    split_ifs at h with he
    cases h
    have hq := (isEmpty_iff _).1 he
    exact ⟨hq, rfl, [], by simp [hq, drainTrace], fun _ => rfl, Or.inl rfl⟩
  | succ n ih =>
    simp only [dispatchEvents] at h
    split_ifs at h with he
    · cases h
      have hq := (isEmpty_iff _).1 he
      exact ⟨hq, rfl, [], by simp [hq, drainTrace], fun _ => rfl, Or.inl rfl⟩
    · cases hq : w.appEvents.eventQueue with
      | nil => exact absurd ((isEmpty_iff _).2 hq) he
      | cons e rest =>
        obtain ⟨w1, h1, h2, h3, h4, h5⟩ := dispatchIteration_cons env w e rest hq
        rw [h1] at h
        obtain ⟨i1, i2, more, i3, i4, i5⟩ := ih w1 h
        refine ⟨i1, i2.trans h3,
          emitted env (w.app.layerStack.map (fun layer => Call.onEvent layer e)) w.ext ++ more,
          ?_, ?_, ?_⟩
        · rw [i3, h2, h3, h4]
          simp [drainTrace, drainTrace_append]
        · intro hquiet
          simp [emitted_onEvent_quiet env hquiet, i4 hquiet]
        · rcases i5 with i5 | ⟨x, hx, hxt⟩
          · rcases h5 with h5 | h5
            · exact Or.inl (i5.trans h5)
            · exact Or.inr ⟨e, by simp, h5⟩
          · refine Or.inr ⟨x, ?_, hxt⟩
            rw [h4] at hx
            simp only [List.mem_append, List.mem_cons] at hx ⊢
            tauto

/-- Termination of the drain when no handler queues: one unit of fuel per
queued event is enough. -/
theorem dispatchEvents_terminates (env : Env τ σ) (hquiet : HandlersQuiet env) (fuel : Nat)
    (w : World τ σ) (hfuel : w.appEvents.eventQueue.length ≤ fuel) :
    ∃ r, dispatchEvents env fuel w = Result.done r := by
  induction fuel generalizing w with
  | zero =>
    have hq : w.appEvents.eventQueue = [] := List.length_eq_zero.1 (Nat.le_zero.1 hfuel)
    exact ⟨w, by simp [dispatchEvents, (isEmpty_iff _).2 hq]⟩
  | succ n ih =>
    cases hq : w.appEvents.eventQueue with
    | nil => exact ⟨w, by simp [dispatchEvents, (isEmpty_iff _).2 hq]⟩
    | cons e rest =>
      obtain ⟨w1, h1, _, _, h4, _⟩ := dispatchIteration_cons env w e rest hq
      have hlen : w1.appEvents.eventQueue.length ≤ n := by
        rw [h4, emitted_onEvent_quiet env hquiet]
        rw [hq] at hfuel
        simp at hfuel ⊢
        omega
      obtain ⟨r, hr⟩ := ih w1 hlen
      refine ⟨r, ?_⟩
      have he : w.appEvents.isEmpty = false := by simp [EventDispatcher.isEmpty, hq]
      simp [dispatchEvents, he, h1, hr]

/-- Progress of the drain whatever the handlers do: it never dequeues from an
empty queue, and with `fuel` iterations the first `fuel` events of the queue at
entry have had their blocks of calls, in queue order. -/
theorem dispatchEvents_progress (env : Env τ σ) (fuel : Nat) (w : World τ σ) :
    ∃ st more, (dispatchEvents env fuel w).state? = some st
      ∧ st.app.layerStack = w.app.layerStack
      ∧ st.trace = w.trace
          ++ drainTrace w.app.layerStack (w.appEvents.eventQueue.take fuel) ++ more := by
  induction fuel generalizing w with
  | zero =>
    refine ⟨w, [], ?_, rfl, by simp [drainTrace]⟩
    simp only [dispatchEvents]
    split_ifs <;> rfl
  | succ n ih =>
    cases hq : w.appEvents.eventQueue with
    | nil =>
      refine ⟨w, [], ?_, rfl, by simp [drainTrace]⟩
      simp [dispatchEvents, (isEmpty_iff _).2 hq, Result.state?]
    | cons e rest =>
      obtain ⟨w1, h1, h2, h3, h4, _⟩ := dispatchIteration_cons env w e rest hq
      obtain ⟨st, more, i1, i2, i3⟩ := ih w1
      have he : w.appEvents.isEmpty = false := by simp [EventDispatcher.isEmpty, hq]
      refine ⟨st, drainTrace w.app.layerStack ((emitted env
          (w.app.layerStack.map (fun layer => Call.onEvent layer e)) w.ext).take
            (n - rest.length)) ++ more,
        ?_, i2.trans h3, ?_⟩
      · simp [dispatchEvents, he, h1, i1]
      · rw [i3, h2, h3, h4, List.take_append_eq_append_take, drainTrace_append]
        simp [drainTrace]

/-! ## One frame -/

theorem noQueueing_handlersQuiet (env : Env τ σ) (h : NoQueueing env) : HandlersQuiet env :=
  fun layer event s => h (Call.onEvent layer event) s

/-- A frame that starts minimized only stores the time and finalizes assets. -/
theorem runFrame_minimized [Sub τ] (env : Env τ σ) (fuel : Nat) (t : τ) (w : World τ σ)
    (hmin : w.app.isMinimized = true) :
    runFrame env fuel t w
      = Result.done (finalizeAssets env { w with app := { w.app with lastTime := t } }) := by
  simp [runFrame, hmin]

/-- A frame that does not start minimized is the drain between `beforeDrain`
and `afterDrain`. -/
theorem runFrame_active [Sub τ] (env : Env τ σ) (fuel : Nat) (t : τ) (w : World τ σ)
    (hmin : w.app.isMinimized = false) :
    runFrame env fuel t w
      = match dispatchEvents env fuel (beforeDrain env t w) with
        | Result.done w => Result.done (afterDrain env w)
        | Result.outOfFuel w => Result.outOfFuel w
        | Result.fault => Result.fault := by
  simp only [runFrame, hmin, beforeDrain, afterDrain]
  rfl

theorem finalizeAssets_trace (env : Env τ σ) (w : World τ σ) :
    (finalizeAssets env w).trace
      = w.trace ++ [Call.bulkGenerateTextures, Call.bulkGenerateMaterials] := by
  simp [finalizeAssets]

@[simp] theorem finalizeAssets_app (env : Env τ σ) (w : World τ σ) :
    (finalizeAssets env w).app = w.app := rfl

theorem afterDrain_trace (env : Env τ σ) (w : World τ σ) :
    (afterDrain env w).trace = w.trace ++ [Call.windowOnUpdate, Call.clear,
      Call.bulkGenerateTextures, Call.bulkGenerateMaterials] := by
  simp [afterDrain, finalizeAssets]

@[simp] theorem afterDrain_app (env : Env τ σ) (w : World τ σ) :
    (afterDrain env w).app = w.app := rfl

theorem call_extends (env : Env τ σ) (c : Call τ) (w : World τ σ) :
    ∃ queued, (call env c w).appEvents.eventQueue = w.appEvents.eventQueue ++ queued
      ∧ (NoQueueing env → queued = []) :=
  ⟨_, call_eventQueue env c w, fun hq => hq c w.ext⟩

theorem foldl_call_extends (env : Env τ σ) (f : Layer → Call τ) (layers : List Layer)
    (w : World τ σ) :
    ∃ queued, (layers.foldl (fun w layer => call env (f layer) w) w).appEvents.eventQueue
        = w.appEvents.eventQueue ++ queued
      ∧ (NoQueueing env → queued = []) :=
  ⟨_, (foldl_call env f layers w).2.2, fun hq => emitted_eq_nil env _ _ (fun c _ s => hq c s)⟩

/-- The state at the entry of the drain. -/
theorem beforeDrain_spec [Sub τ] (env : Env τ σ) (t : τ) (w : World τ σ) :
    (beforeDrain env t w).trace = w.trace
        ++ w.app.layerStack.map (fun layer => Call.onUpdate layer (t - w.app.lastTime))
        ++ [Call.beginImGui]
        ++ w.app.layerStack.map (fun layer => Call.onImGuiRender layer)
        ++ [Call.endImGui]
    ∧ (beforeDrain env t w).app = { w.app with lastTime := t }
    ∧ ∃ queued, (beforeDrain env t w).appEvents.eventQueue = w.appEvents.eventQueue ++ queued
      ∧ (NoQueueing env → queued = []) := by
  obtain ⟨a1, a2, _⟩ := foldl_call env
    (fun layer => Call.onUpdate layer (t - w.app.lastTime)) w.app.layerStack
    { w with app := { w.app with lastTime := t } }
  obtain ⟨b1, b2, _⟩ := foldl_call env (fun layer => Call.onImGuiRender layer)
    w.app.layerStack
    (call env Call.beginImGui (w.app.layerStack.foldl
      (fun v layer => call env (Call.onUpdate layer (t - w.app.lastTime)) v)
      { w with app := { w.app with lastTime := t } }))
  obtain ⟨q1, e1, n1⟩ := foldl_call_extends env
    (fun layer => Call.onUpdate layer (t - w.app.lastTime)) w.app.layerStack
    { w with app := { w.app with lastTime := t } }
  obtain ⟨q2, e2, n2⟩ := call_extends env Call.beginImGui (w.app.layerStack.foldl
      (fun v layer => call env (Call.onUpdate layer (t - w.app.lastTime)) v)
      { w with app := { w.app with lastTime := t } })
  obtain ⟨q3, e3, n3⟩ := foldl_call_extends env (fun layer => Call.onImGuiRender layer)
    w.app.layerStack
    (call env Call.beginImGui (w.app.layerStack.foldl
      (fun v layer => call env (Call.onUpdate layer (t - w.app.lastTime)) v)
      { w with app := { w.app with lastTime := t } }))
  obtain ⟨q4, e4, n4⟩ := call_extends env Call.endImGui
    (w.app.layerStack.foldl (fun v layer => call env (Call.onImGuiRender layer) v)
      (call env Call.beginImGui (w.app.layerStack.foldl
        (fun v layer => call env (Call.onUpdate layer (t - w.app.lastTime)) v)
        { w with app := { w.app with lastTime := t } })))
  refine ⟨?_, ?_, ?_⟩
  · simp only [beforeDrain, call_trace, call_app, a2, b1, a1]
  · simp only [beforeDrain, call_app, a2, b2]
  · refine ⟨q1 ++ q2 ++ q3 ++ q4, ?_, ?_⟩
    · simp only [beforeDrain, call_app, a2]
      rw [e4, e3, e2, e1]
      simp
    · intro hq
      simp [n1 hq, n2 hq, n3 hq, n4 hq]

/-- The queue when a frame that is not minimized ends holds only what the
window update, the clear and the asset finalize queued. -/
theorem afterDrain_extends (env : Env τ σ) (w : World τ σ) :
    ∃ queued, (afterDrain env w).appEvents.eventQueue = w.appEvents.eventQueue ++ queued
      ∧ (NoQueueing env → queued = []) := by
  obtain ⟨q1, e1, n1⟩ := call_extends env Call.windowOnUpdate w
  obtain ⟨q2, e2, n2⟩ := call_extends env Call.clear (call env Call.windowOnUpdate w)
  obtain ⟨q3, e3, n3⟩ := call_extends env Call.bulkGenerateTextures
    (call env Call.clear (call env Call.windowOnUpdate w))
  obtain ⟨q4, e4, n4⟩ := call_extends env Call.bulkGenerateMaterials
    (call env Call.bulkGenerateTextures (call env Call.clear (call env Call.windowOnUpdate w)))
  refine ⟨q1 ++ q2 ++ q3 ++ q4, ?_, ?_⟩
  · simp only [afterDrain, finalizeAssets]
    rw [e4, e3, e2, e1]
    simp
  · intro hq
    simp [n1 hq, n2 hq, n3 hq, n4 hq]

/-- A frame that does not start minimized and returns: its trace is the frame
trace over the events queued at its start followed by those queued meanwhile,
and the minimized flag changed only if a resize event was drained. -/
theorem runFrame_active_done [Sub τ] (env : Env τ σ) (fuel : Nat) (t : τ) (w r : World τ σ)
    (hmin : w.app.isMinimized = false) (h : runFrame env fuel t w = Result.done r) :
    r.app.layerStack = w.app.layerStack
    ∧ ∃ queued, r.trace = w.trace
          ++ frameTrace w.app.layerStack (t - w.app.lastTime) (w.appEvents.eventQueue ++ queued)
      ∧ (NoQueueing env → queued = [])
      ∧ (r.app.isMinimized = false
          ∨ ∃ e ∈ w.appEvents.eventQueue ++ queued, e.getType = EventType.WindowResizeEvent) := by
  rw [runFrame_active env fuel t w hmin] at h
  obtain ⟨b1, b2, qb, b3, b4⟩ := beforeDrain_spec env t w
  cases hd : dispatchEvents env fuel (beforeDrain env t w) with
  | done d =>
    rw [hd] at h
    simp only [Result.done.injEq] at h
    subst h
    obtain ⟨_, d2, more, d3, d4, d5⟩ := dispatchEvents_done env fuel _ d hd
    rw [b2] at d2 d5
    rw [b2, b1, b3] at d3
    rw [b3] at d5
    refine ⟨by simpa using d2, qb ++ more, ?_, ?_, ?_⟩
    · rw [afterDrain_trace, d3]
      simp [frameTrace]
    · intro hq
      simp [b4 hq, d4 (noQueueing_handlersQuiet env hq)]
    · simp only [afterDrain_app]
      rcases d5 with d5 | ⟨e, he, het⟩
      · exact Or.inl (d5.trans hmin)
      · exact Or.inr ⟨e, by simpa using he, het⟩
  | outOfFuel d => rw [hd] at h; cases h
  | fault => rw [hd] at h; cases h

/-- A frame returns when no layer handler queues events during the drain. -/
theorem runFrame_terminates [Sub τ] (env : Env τ σ) (hquiet : HandlersQuiet env) (t : τ)
    (w : World τ σ) : ∃ fuel r, runFrame env fuel t w = Result.done r := by
  cases hmin : w.app.isMinimized with
  | true => exact ⟨0, _, runFrame_minimized env 0 t w hmin⟩
  | false =>
    obtain ⟨d, hd⟩ := dispatchEvents_terminates env hquiet
      (beforeDrain env t w).appEvents.eventQueue.length (beforeDrain env t w) le_rfl
    exact ⟨_, afterDrain env d, by rw [runFrame_active env _ t w hmin, hd]⟩

/-- A frame returns with one unit of fuel per event queued at its start when
no collaborator queues events. -/
theorem runFrame_terminates_noQueueing [Sub τ] (env : Env τ σ) (hq : NoQueueing env) (t : τ)
    (w : World τ σ) (fuel : Nat) (hfuel : w.appEvents.eventQueue.length ≤ fuel) :
    ∃ r, runFrame env fuel t w = Result.done r := by
  cases hmin : w.app.isMinimized with
  | true => exact ⟨_, runFrame_minimized env fuel t w hmin⟩
  | false =>
    obtain ⟨_, _, qb, b3, b4⟩ := beforeDrain_spec env t w
    have hlen : (beforeDrain env t w).appEvents.eventQueue.length ≤ fuel := by
      rw [b3, b4 hq]; simpa using hfuel
    obtain ⟨d, hd⟩ := dispatchEvents_terminates env (noQueueing_handlersQuiet env hq)
      fuel (beforeDrain env t w) hlen
    exact ⟨afterDrain env d, by rw [runFrame_active env _ t w hmin, hd]⟩

/-! ## Membership in the expected traces -/

theorem mem_drainTrace (layers : List Layer) (events : List Event) (e : Event)
    (he : e ∈ events) :
    (Call.dequeueEvent e : Call τ) ∈ drainTrace layers events
    ∧ (Call.appOnEvent e : Call τ) ∈ drainTrace layers events
    ∧ (∀ layer ∈ layers, (Call.onEvent layer e : Call τ) ∈ drainTrace layers events)
    ∧ (Call.deleteEvent e : Call τ) ∈ drainTrace layers events := by
  induction events with
  | nil => cases he
  | cons x xs ih =>
    rcases List.mem_cons.1 he with rfl | hx
    · refine ⟨by simp [drainTrace, eventBlock], by simp [drainTrace, eventBlock], ?_,
        by simp [drainTrace, eventBlock]⟩
      intro layer hl
      simp only [drainTrace, eventBlock, List.mem_append, List.mem_map]
      exact Or.inl (Or.inl (Or.inr ⟨layer, hl, rfl⟩))
    · obtain ⟨h1, h2, h3, h4⟩ := ih hx
      refine ⟨?_, ?_, ?_, ?_⟩
      · simp only [drainTrace, List.mem_append]; exact Or.inr h1
      · simp only [drainTrace, List.mem_append]; exact Or.inr h2
      · intro layer hl
        simp only [drainTrace, List.mem_append]; exact Or.inr (h3 layer hl)
      · simp only [drainTrace, List.mem_append]; exact Or.inr h4

theorem drainTrace_not_finalize (layers : List Layer) (events : List Event) :
    ∀ c ∈ (drainTrace layers events : List (Call τ)), c.isFinalize = false := by
  induction events with
  | nil => intro c hc; cases hc
  | cons x xs ih =>
    intro c hc
    simp only [drainTrace, eventBlock, List.mem_append, List.mem_map, List.mem_cons,
      List.mem_singleton, List.not_mem_nil, or_false] at hc
    rcases hc with ((((rfl | rfl) | ⟨l, _, rfl⟩) | rfl) | hc)
    · rfl
    · rfl
    · rfl
    · rfl
    · exact ih c hc

theorem dispatchEvents_succ_cons (env : Env τ σ) (fuel : Nat) (w w1 : World τ σ)
    (e : Event) (rest : List Event) (hq : w.appEvents.eventQueue = e :: rest)
    (h1 : dispatchIteration env w = some w1) :
    dispatchEvents env (fuel + 1) w = dispatchEvents env fuel w1 := by
  have he : w.appEvents.isEmpty = false := by simp [EventDispatcher.isEmpty, hq]
  simp [dispatchEvents, he, h1]

/-! ## What a trace delivers -/

theorem dequeued_eventBlock (layers : List Layer) (e : Event) :
    dequeued (eventBlock layers e : List (Call τ)) = [e] := by
  have h : ∀ ls : List Layer,
      dequeued (ls.map (fun layer => (Call.onEvent layer e : Call τ))) = [] := by
    intro ls
    induction ls with
    | nil => rfl
    | cons l ls _ => simp [dequeued]
  have h2 := h layers
  simp only [dequeued] at h2
  simp [dequeued, eventBlock, List.filterMap_append, h2]

theorem deliveredToApp_eventBlock (layers : List Layer) (e : Event) :
    deliveredToApp (eventBlock layers e : List (Call τ)) = [e] := by
  have h : ∀ ls : List Layer,
      deliveredToApp (ls.map (fun layer => (Call.onEvent layer e : Call τ))) = [] := by
    intro ls
    induction ls with
    | nil => rfl
    | cons l ls _ => simp [deliveredToApp]
  have h2 := h layers
  simp only [deliveredToApp] at h2
  simp [deliveredToApp, eventBlock, List.filterMap_append, h2]

theorem deliveredTo_eventBlock (layer : Layer) (layers : List Layer) (e : Event) :
    deliveredTo layer (eventBlock layers e : List (Call τ))
      = List.replicate (layers.count layer) e := by
  have h : ∀ ls : List Layer,
      deliveredTo layer (ls.map (fun l => (Call.onEvent l e : Call τ)))
        = List.replicate (ls.count layer) e := by
    intro ls
    induction ls with
    | nil => rfl
    | cons l ls ih =>
      simp only [deliveredTo] at ih
      by_cases hl : l = layer
      · subst hl
        simp [deliveredTo, ih, List.replicate_succ]
      · have hl2 : (l == layer) = false := by simpa using hl
        simp [deliveredTo, ih, hl, List.count_cons, hl2]
  have h2 := h layers
  simp only [deliveredTo] at h2
  simp [deliveredTo, eventBlock, List.filterMap_append, h2]

theorem dequeued_drainTrace (layers : List Layer) (events : List Event) :
    dequeued (drainTrace layers events : List (Call τ)) = events := by
  induction events with
  | nil => rfl
  | cons e es ih =>
    have hb := dequeued_eventBlock (τ := τ) layers e
    simp only [dequeued] at ih hb
    simp [dequeued, drainTrace, List.filterMap_append, ih, hb]

theorem deliveredToApp_drainTrace (layers : List Layer) (events : List Event) :
    deliveredToApp (drainTrace layers events : List (Call τ)) = events := by
  induction events with
  | nil => rfl
  | cons e es ih =>
    have hb := deliveredToApp_eventBlock (τ := τ) layers e
    simp only [deliveredToApp] at ih hb
    simp [deliveredToApp, drainTrace, List.filterMap_append, ih, hb]

theorem deliveredTo_drainTrace (layer : Layer) (layers : List Layer) (events : List Event)
    (hc : layers.count layer = 1) :
    deliveredTo layer (drainTrace layers events : List (Call τ)) = events := by
  induction events with
  | nil => rfl
  | cons e es ih =>
    have hb := deliveredTo_eventBlock (τ := τ) layer layers e
    simp only [deliveredTo] at ih hb
    simp [deliveredTo, drainTrace, List.filterMap_append, ih, hb, hc]

/-- While `running` holds, `Application::run` executes one frame and loops. -/
theorem run_cons [Sub τ] (env : Env τ σ) (fuel : Nat) (t : τ) (clock : List τ) (w : World τ σ)
    (hrun : w.app.running = true) :
    run env fuel (t :: clock) w
      = match runFrame env fuel t w with
        | Result.done w => run env fuel clock w
        | Result.outOfFuel w => Result.outOfFuel w
        | Result.fault => Result.fault := by
  simp [run, hrun]

/-- Once `running` is false, `Application::run` returns. -/
theorem run_stopped [Sub τ] (env : Env τ σ) (fuel : Nat) (clock : List τ) (w : World τ σ)
    (hrun : w.app.running = false) : run env fuel clock w = Result.done w := by
  cases clock <;> simp [run, hrun]

/-! ## The flags and the timestamp through the drain -/

theorem onEvent_running (env : Env τ σ) (e : Event) (w : World τ σ) :
    (Application.onEvent env e w).app.running
      = (w.app.running && !(e.getType == EventType.WindowCloseEvent)) := by
  simp only [Application.onEvent, Application.onWindowResize, Application.close]
  split_ifs <;> simp_all

theorem onEvent_lastTime (env : Env τ σ) (e : Event) (w : World τ σ) :
    (Application.onEvent env e w).app.lastTime = w.app.lastTime := by
  simp only [Application.onEvent, Application.onWindowResize, Application.close]
  split_ifs <;> rfl

/-- One iteration of the drain loop: `running` is cleared by a close event and
by nothing else, the timestamp is kept. -/
theorem dispatchIteration_flags (env : Env τ σ) (w w1 : World τ σ) (e : Event)
    (rest : List Event) (hq : w.appEvents.eventQueue = e :: rest)
    (h1 : dispatchIteration env w = some w1) :
    w1.app.running = (w.app.running && !(e.getType == EventType.WindowCloseEvent))
    ∧ w1.app.lastTime = w.app.lastTime := by
  rw [dispatchIteration_eq env w e rest hq] at h1
  simp only [Option.some.injEq] at h1
  subst h1
  obtain ⟨_, h2, _⟩ := foldl_call env (fun layer => Call.onEvent layer e)
    w.app.layerStack
    (Application.onEvent env e (record (Call.appOnEvent e)
      (record (Call.dequeueEvent e) { w with appEvents := { eventQueue := rest } })))
  simp only [record_app, h2]
  exact ⟨onEvent_running env e _, onEvent_lastTime env e _⟩

/-- The drain that returns: `running` afterwards is `running` before unless a
close event was among the events dequeued; the timestamp is kept. -/
theorem dispatchEvents_done_flags (env : Env τ σ) (fuel : Nat) (w r : World τ σ)
    (h : dispatchEvents env fuel w = Result.done r) :
    r.app.lastTime = w.app.lastTime
    ∧ ∃ more, r.trace = w.trace ++ drainTrace w.app.layerStack (w.appEvents.eventQueue ++ more)
      ∧ r.app.running = (w.app.running
          && (w.appEvents.eventQueue ++ more).all
              (fun e => !(e.getType == EventType.WindowCloseEvent))) := by
  induction fuel generalizing w with
  | zero =>
    simp only [dispatchEvents] at h
    split_ifs at h with he
    cases h
    have hq := (isEmpty_iff _).1 he
    exact ⟨rfl, [], by simp [hq, drainTrace], by simp [hq]⟩
  | succ n ih =>
    simp only [dispatchEvents] at h
    split_ifs at h with he
    · cases h
      have hq := (isEmpty_iff _).1 he
      exact ⟨rfl, [], by simp [hq, drainTrace], by simp [hq]⟩
    · cases hq : w.appEvents.eventQueue with
      | nil => exact absurd ((isEmpty_iff _).2 hq) he
      | cons e rest =>
        obtain ⟨w1, h1, h2, h3, h4, _⟩ := dispatchIteration_cons env w e rest hq
        obtain ⟨f1, f2⟩ := dispatchIteration_flags env w w1 e rest hq h1
        rw [h1] at h
        obtain ⟨i1, more, i3, i4⟩ := ih w1 h
        refine ⟨i1.trans f2,
          emitted env (w.app.layerStack.map (fun layer => Call.onEvent layer e)) w.ext ++ more,
          ?_, ?_⟩
        · rw [i3, h2, h3, h4]
          simp [drainTrace, drainTrace_append]
        · rw [i4, f1, h4]
          simp [Bool.and_assoc]

/-- The state a drain reaches, returned or out of fuel: the trace grew by whole
blocks of dequeued events. -/
theorem dispatchEvents_state_trace (env : Env τ σ) (fuel : Nat) (w st : World τ σ)
    (h : (dispatchEvents env fuel w).state? = some st) :
    st.app.layerStack = w.app.layerStack
    ∧ ∃ events, st.trace = w.trace ++ drainTrace w.app.layerStack events := by
  induction fuel generalizing w with
  | zero =>
    simp only [dispatchEvents] at h
    split_ifs at h <;>
    · simp only [Result.state?, Option.some.injEq] at h
      subst h
      exact ⟨rfl, [], by simp [drainTrace]⟩
  | succ n ih =>
    simp only [dispatchEvents] at h
    split_ifs at h with he
    · simp only [Result.state?, Option.some.injEq] at h
      subst h
      exact ⟨rfl, [], by simp [drainTrace]⟩
    · cases hq : w.appEvents.eventQueue with
      | nil => exact absurd ((isEmpty_iff _).2 hq) he
      | cons e rest =>
        obtain ⟨w1, h1, h2, h3, _, _⟩ := dispatchIteration_cons env w e rest hq
        rw [h1] at h
        obtain ⟨i1, events, i2⟩ := ih w1 h
        refine ⟨i1.trans h3, e :: events, ?_⟩
        rw [i2, h2, h3]
        simp [drainTrace]

/-- A frame that does not start minimized and returns: the timestamp is the
sampled time, and `running` was cleared exactly if a close event was among the
events dequeued. -/
theorem runFrame_active_flags [Sub τ] (env : Env τ σ) (fuel : Nat) (t : τ) (w r : World τ σ)
    (hmin : w.app.isMinimized = false) (h : runFrame env fuel t w = Result.done r) :
    r.app.lastTime = t
    ∧ ∃ queued, r.trace = w.trace
          ++ frameTrace w.app.layerStack (t - w.app.lastTime) (w.appEvents.eventQueue ++ queued)
      ∧ r.app.running = (w.app.running
          && (w.appEvents.eventQueue ++ queued).all
              (fun e => !(e.getType == EventType.WindowCloseEvent))) := by
  rw [runFrame_active env fuel t w hmin] at h
  obtain ⟨b1, b2, qb, b3, _⟩ := beforeDrain_spec env t w
  cases hd : dispatchEvents env fuel (beforeDrain env t w) with
  | done d =>
    rw [hd] at h
    simp only [Result.done.injEq] at h
    subst h
    obtain ⟨d1, more, d3, d4⟩ := dispatchEvents_done_flags env fuel _ d hd
    rw [b2] at d1 d4
    rw [b2, b1, b3] at d3
    rw [b3] at d4
    refine ⟨by simpa using d1, qb ++ more, ?_, ?_⟩
    · rw [afterDrain_trace, d3]
      simp [frameTrace]
    · simp only [afterDrain_app]
      rw [d4]
      simp
  | outOfFuel d => rw [hd] at h; cases h
  | fault => rw [hd] at h; cases h

/-- Every frame that returns stores the sampled time. -/
theorem runFrame_lastTime [Sub τ] (env : Env τ σ) (fuel : Nat) (t : τ) (w r : World τ σ)
    (h : runFrame env fuel t w = Result.done r) : r.app.lastTime = t := by
  cases hmin : w.app.isMinimized with
  | true =>
    rw [runFrame_minimized env fuel t w hmin] at h
    simp only [Result.done.injEq] at h
    subst h
    rfl
  | false => exact (runFrame_active_flags env fuel t w r hmin h).1

/-- The frames of `runFrames` are the first frames of `Application::run`. -/
theorem runFrames_run [Sub τ] (env : Env τ σ) (fuel : Nat) (samples clock : List τ)
    (w r : World τ σ) (deltas : List τ)
    (h : runFrames env fuel samples w = some (deltas, r)) :
    run env fuel (samples ++ clock) w = run env fuel clock r := by
  induction samples generalizing w deltas with
  | nil =>
    simp only [runFrames, Option.some.injEq, Prod.mk.injEq] at h
    rw [h.2]; rfl
  | cons t ts ih =>
    simp only [runFrames] at h
    split_ifs at h with hrun
    cases hf : runFrame env fuel t w with
    | done w1 =>
      rw [hf] at h
      simp only [Option.map_eq_some', Prod.mk.injEq] at h
      obtain ⟨⟨ds, r1⟩, h1, _, h3⟩ := h
      simp only at h3
      subst h3
      rw [List.cons_append, run_cons env fuel t _ w hrun, hf]
      exact ih w1 ds h1
    | outOfFuel w1 => rw [hf] at h; cases h
    | fault => rw [hf] at h; cases h

/-- Over consecutive frames the deltas telescope: they sum to the timestamp
after the last frame minus the timestamp before the first, and the timestamp
after the last frame is the last sampled time. -/
theorem runFrames_sum [AddCommGroup τ] (env : Env τ σ) (fuel : Nat) (samples : List τ)
    (w r : World τ σ) (deltas : List τ)
    (h : runFrames env fuel samples w = some (deltas, r)) :
    deltas.length = samples.length
    ∧ deltas.sum = r.app.lastTime - w.app.lastTime
    ∧ ∀ hne : samples ≠ [], r.app.lastTime = samples.getLast hne := by
  induction samples generalizing w deltas with
  | nil =>
    simp only [runFrames, Option.some.injEq, Prod.mk.injEq] at h
    obtain ⟨h1, h2⟩ := h
    subst h1 h2
    exact ⟨rfl, by simp, fun hne => absurd rfl hne⟩
  | cons t ts ih =>
    simp only [runFrames] at h
    split_ifs at h with hrun
    cases hf : runFrame env fuel t w with
    | done w1 =>
      rw [hf] at h
      simp only [Option.map_eq_some', Prod.mk.injEq] at h
      obtain ⟨⟨ds, r1⟩, h1, h2, h3⟩ := h
      simp only at h2 h3
      subst h2 h3
      obtain ⟨i1, i2, i3⟩ := ih w1 ds h1
      have hl := runFrame_lastTime env fuel t w w1 hf
      refine ⟨by simp [i1], ?_, ?_⟩
      · rw [List.sum_cons, i2, hl]
        abel
      · intro _
        cases ts with
        | nil =>
          simp only [runFrames, Option.some.injEq, Prod.mk.injEq] at h1
          rw [← h1.2, hl]; rfl
        | cons t2 ts2 =>
          rw [List.getLast_cons (List.cons_ne_nil t2 ts2)]
          exact i3 (List.cons_ne_nil t2 ts2)
    | outOfFuel w1 => rw [hf] at h; cases h
    | fault => rw [hf] at h; cases h

/-! ## Construction -/

/-- What the constructor builds: `appInstance` becomes the new object, the
flags and the timestamp have their initial values, the stack holds the ImGui
overlay, and the trace shows the overlay pushed and attached between the start
of the services and of the renderer. -/
theorem Application.new_spec [Zero τ] (env : Env τ σ) (ndebug : Bool) (appInstance this : Nat)
    (imLayer : Layer) (appEvents : EventDispatcher) (ext : σ) (trace : List (Call τ))
    (a : Nat) (stdout : List String) (w : World τ σ)
    (h : Application.new env ndebug appInstance this imLayer appEvents ext trace
      = Construction.constructed a stdout w) :
    a = this
    ∧ w.app = { running := true, isMinimized := false, lastTime := 0,
                layerStack := [imLayer], overlayBoundary := 0 }
    ∧ w.trace = trace ++ [Call.startupServices, Call.stackPushOverlay imLayer,
        Call.onAttach imLayer, Call.rendererInit] := by
  have key : (appInstance != nullptr
      && !assertPasses ndebug (appInstance != nullptr)) = false := by
    cases hn : (appInstance != nullptr) <;> simp [assertPasses]
  simp only [Application.new, key, Bool.false_eq_true, if_false,
    Construction.constructed.injEq] at h
  obtain ⟨h1, _, h3⟩ := h
  subst h3
  refine ⟨h1.symm, ?_, ?_⟩
  · simp [Application.pushOverlay, Application.stack, LayerStack.pushOverlay]
  · simp [Application.pushOverlay]

/-! ## No fault -/

theorem dispatchEvents_ne_fault (env : Env τ σ) (fuel : Nat) (w : World τ σ) :
    dispatchEvents env fuel w ≠ Result.fault := by
  obtain ⟨st, _, h, _⟩ := dispatchEvents_progress env fuel w
  intro hf
  rw [hf] at h
  cases h

theorem runFrame_ne_fault [Sub τ] (env : Env τ σ) (fuel : Nat) (t : τ) (w : World τ σ) :
    runFrame env fuel t w ≠ Result.fault := by
  cases hmin : w.app.isMinimized with
  | true => rw [runFrame_minimized env fuel t w hmin]; exact fun h => by cases h
  | false =>
    rw [runFrame_active env fuel t w hmin]
    cases hd : dispatchEvents env fuel (beforeDrain env t w) with
    | done d => exact fun h => by cases h
    | outOfFuel d => exact fun h => by cases h
    | fault => exact absurd hd (dispatchEvents_ne_fault env fuel _)

theorem run_ne_fault [Sub τ] (env : Env τ σ) (fuel : Nat) (clock : List τ) (w : World τ σ) :
    run env fuel clock w ≠ Result.fault := by
  induction clock generalizing w with
  | nil =>
    simp only [run]
    split_ifs <;> exact fun h => by cases h
  | cons t ts ih =>
    cases hrun : w.app.running with
    | false => rw [run_stopped env fuel _ w hrun]; exact fun h => by cases h
    | true =>
      rw [run_cons env fuel t ts w hrun]
      cases hf : runFrame env fuel t w with
      | done w1 => exact ih w1
      | outOfFuel w1 => exact fun h => by cases h
      | fault => exact absurd hf (runFrame_ne_fault env fuel t w)

/-! ## The calls of the run loop -/

theorem drainTrace_inRunLoop (layers : List Layer) (events : List Event) :
    ∀ c ∈ (drainTrace layers events : List (Call τ)), c.inRunLoop = true := by
  induction events with
  | nil => intro c hc; cases hc
  | cons x xs ih =>
    intro c hc
    simp only [drainTrace, eventBlock, List.mem_append, List.mem_map, List.mem_cons,
      List.mem_singleton, List.not_mem_nil, or_false] at hc
    rcases hc with ((((rfl | rfl) | ⟨l, _, rfl⟩) | rfl) | hc)
    · rfl
    · rfl
    · rfl
    · rfl
    · exact ih c hc

/-- The state a frame reaches, returned or out of fuel: the trace grew by calls
of the run loop only. -/
theorem runFrame_state_trace [Sub τ] (env : Env τ σ) (fuel : Nat) (t : τ) (w st : World τ σ)
    (h : (runFrame env fuel t w).state? = some st) :
    ∃ added, st.trace = w.trace ++ added ∧ ∀ c ∈ added, c.inRunLoop = true := by
  cases hmin : w.app.isMinimized with
  | true =>
    rw [runFrame_minimized env fuel t w hmin] at h
    simp only [Result.state?, Option.some.injEq] at h
    subst h
    refine ⟨_, finalizeAssets_trace env _, ?_⟩
    intro c hc
    simp only [List.mem_cons, List.mem_singleton, List.not_mem_nil, or_false] at hc
    rcases hc with rfl | rfl <;> rfl
  | false =>
    rw [runFrame_active env fuel t w hmin] at h
    obtain ⟨b1, b2, _⟩ := beforeDrain_spec env t w
    have hpre : ∀ c ∈ (w.app.layerStack.map
          (fun layer => (Call.onUpdate layer (t - w.app.lastTime) : Call τ))
        ++ [Call.beginImGui]
        ++ w.app.layerStack.map (fun layer => Call.onImGuiRender layer)
        ++ [Call.endImGui]), c.inRunLoop = true := by
      intro c hc
      simp only [List.mem_append, List.mem_map, List.mem_cons, List.mem_singleton,
        List.not_mem_nil, or_false] at hc
      rcases hc with (((⟨l, _, rfl⟩ | rfl) | ⟨l, _, rfl⟩) | rfl) <;> rfl
    cases hd : dispatchEvents env fuel (beforeDrain env t w) with
    | done d =>
      rw [hd] at h
      simp only [Result.state?, Option.some.injEq] at h
      subst h
      obtain ⟨_, events, d2⟩ := dispatchEvents_state_trace env fuel _ d (by rw [hd]; rfl)
      refine ⟨(w.app.layerStack.map
            (fun layer => (Call.onUpdate layer (t - w.app.lastTime) : Call τ))
          ++ [Call.beginImGui]
          ++ w.app.layerStack.map (fun layer => Call.onImGuiRender layer)
          ++ [Call.endImGui])
        ++ drainTrace (beforeDrain env t w).app.layerStack events
        ++ [Call.windowOnUpdate, Call.clear, Call.bulkGenerateTextures,
            Call.bulkGenerateMaterials], ?_, ?_⟩
      · rw [afterDrain_trace, d2, b1]
        simp only [List.append_assoc]
      · intro c hc
        rcases List.mem_append.1 hc with hc | hc
        · rcases List.mem_append.1 hc with hc | hc
          · exact hpre c hc
          · exact drainTrace_inRunLoop _ _ c hc
        · simp only [List.mem_cons, List.mem_singleton, List.not_mem_nil, or_false] at hc
          rcases hc with rfl | rfl | rfl | rfl <;> rfl
    | outOfFuel d =>
      rw [hd] at h
      simp only [Result.state?, Option.some.injEq] at h
      subst h
      obtain ⟨_, events, d2⟩ := dispatchEvents_state_trace env fuel _ d (by rw [hd]; rfl)
      refine ⟨(w.app.layerStack.map
            (fun layer => (Call.onUpdate layer (t - w.app.lastTime) : Call τ))
          ++ [Call.beginImGui]
          ++ w.app.layerStack.map (fun layer => Call.onImGuiRender layer)
          ++ [Call.endImGui])
        ++ drainTrace (beforeDrain env t w).app.layerStack events, ?_, ?_⟩
      · rw [d2, b1]
        simp only [List.append_assoc]
      · intro c hc
        rcases List.mem_append.1 hc with hc | hc
        · exact hpre c hc
        · exact drainTrace_inRunLoop _ _ c hc
    | fault => rw [hd] at h; cases h

/-- The state `Application::run` reaches: the trace grew by calls of the run
loop only. -/
theorem run_state_trace [Sub τ] (env : Env τ σ) (fuel : Nat) (clock : List τ)
    (w st : World τ σ) (h : (run env fuel clock w).state? = some st) :
    ∃ added, st.trace = w.trace ++ added ∧ ∀ c ∈ added, c.inRunLoop = true := by
  induction clock generalizing w with
  | nil =>
    simp only [run] at h
    split_ifs at h <;>
    · simp only [Result.state?, Option.some.injEq] at h
      subst h
      exact ⟨[], by simp, fun c hc => by cases hc⟩
  | cons t ts ih =>
    cases hrun : w.app.running with
    | false =>
      rw [run_stopped env fuel _ w hrun] at h
      simp only [Result.state?, Option.some.injEq] at h
      subst h
      exact ⟨[], by simp, fun c hc => by cases hc⟩
    | true =>
      rw [run_cons env fuel t ts w hrun] at h
      cases hf : runFrame env fuel t w with
      | done w1 =>
        rw [hf] at h
        obtain ⟨a1, e1, p1⟩ := runFrame_state_trace env fuel t w w1 (by rw [hf]; rfl)
        obtain ⟨a2, e2, p2⟩ := ih w1 h
        refine ⟨a1 ++ a2, by rw [e2, e1, List.append_assoc], ?_⟩
        intro c hc
        rcases List.mem_append.1 hc with hc | hc
        · exact p1 c hc
        · exact p2 c hc
      | outOfFuel w1 =>
        rw [hf] at h
        simp only [Result.state?, Option.some.injEq] at h
        subst h
        exact runFrame_state_trace env fuel t w _ (by rw [hf]; rfl)
      | fault => rw [hf] at h; cases h

/-! ## Pushes and teardown -/

theorem pushLayer_trace (env : Env τ σ) (layer : Layer) (w : World τ σ) :
    (Application.pushLayer env layer w).trace
      = w.trace ++ [Call.stackPushLayer layer, Call.onAttach layer] := by
  simp [Application.pushLayer]

theorem pushOverlay_trace (env : Env τ σ) (layer : Layer) (w : World τ σ) :
    (Application.pushOverlay env layer w).trace
      = w.trace ++ [Call.stackPushOverlay layer, Call.onAttach layer] := by
  simp [Application.pushOverlay]

theorem pushLayer_app (env : Env τ σ) (layer : Layer) (w : World τ σ) :
    (Application.pushLayer env layer w).app
      = { w.app with
          layerStack := (w.app.stack.pushLayer layer).layers
          overlayBoundary := (w.app.stack.pushLayer layer).overlayBoundary } := rfl

theorem pushOverlay_app (env : Env τ σ) (layer : Layer) (w : World τ σ) :
    (Application.pushOverlay env layer w).app
      = { w.app with
          layerStack := (w.app.stack.pushOverlay layer).layers
          overlayBoundary := (w.app.stack.pushOverlay layer).overlayBoundary } := rfl

/-- The partition of the stack through a sequence of pushes: from regular
layers `R` followed by overlays `O`, the pushes give `R` and the new regular
layers followed by `O` and the new overlays. -/
theorem LayerStack.pushAll_spec (ops : List Push) (R O : List Layer) :
    LayerStack.pushAll ops { layers := R ++ O, overlayBoundary := R.length }
      = { layers := (R ++ regulars ops) ++ (O ++ overlays ops)
          overlayBoundary := (R ++ regulars ops).length } := by
  induction ops generalizing R O with
  | nil => simp [LayerStack.pushAll, regulars, overlays]
  | cons op ops ih =>
    cases op with
    | layer l =>
      have h : ({ layers := R ++ O, overlayBoundary := R.length } : LayerStack).pushLayer l
          = { layers := (R ++ [l]) ++ O, overlayBoundary := (R ++ [l]).length } := by
        simp [LayerStack.pushLayer]
      simp only [LayerStack.pushAll, h, ih, regulars, overlays]
      simp
    | overlay l =>
      have h : ({ layers := R ++ O, overlayBoundary := R.length } : LayerStack).pushOverlay l
          = { layers := R ++ (O ++ [l]), overlayBoundary := R.length } := by
        simp [LayerStack.pushOverlay]
      simp only [LayerStack.pushAll, h, ih, regulars, overlays]
      simp

/-- The pushes of the application act on its stack as the pushes of
`LayerStack`, and leave the flags and the timestamp alone. -/
theorem Application.pushAll_app (env : Env τ σ) (ops : List Push) (w : World τ σ) :
    (Application.pushAll env ops w).app.stack = LayerStack.pushAll ops w.app.stack
    ∧ (Application.pushAll env ops w).app.running = w.app.running
    ∧ (Application.pushAll env ops w).app.isMinimized = w.app.isMinimized
    ∧ (Application.pushAll env ops w).app.lastTime = w.app.lastTime := by
  induction ops generalizing w with
  | nil => exact ⟨rfl, rfl, rfl, rfl⟩
  | cons op ops ih =>
    cases op with
    | layer l =>
      obtain ⟨h1, h2, h3, h4⟩ := ih (Application.pushLayer env l w)
      exact ⟨by rw [Application.pushAll, h1]; rfl, by rw [Application.pushAll, h2]; rfl,
        by rw [Application.pushAll, h3]; rfl, by rw [Application.pushAll, h4]; rfl⟩
    | overlay l =>
      obtain ⟨h1, h2, h3, h4⟩ := ih (Application.pushOverlay env l w)
      exact ⟨by rw [Application.pushAll, h1]; rfl, by rw [Application.pushAll, h2]; rfl,
        by rw [Application.pushAll, h3]; rfl, by rw [Application.pushAll, h4]; rfl⟩

/-- The teardown loop: one `onDetach` then one delete per layer, in stack
order. -/
theorem detach_foldl_trace (env : Env τ σ) (layers : List Layer) (w : World τ σ) :
    (layers.foldl
      (fun w layer => record (Call.deleteLayer layer) (call env (Call.onDetach layer) w)) w).trace
      = w.trace ++ detachTrace layers := by
  induction layers generalizing w with
  | nil => simp [detachTrace]
  | cons l ls ih => simp [List.foldl, ih, detachTrace]

theorem destroy_trace (env : Env τ σ) (w : World τ σ) :
    (Application.destroy env w).trace = w.trace ++ detachTrace w.app.layerStack
      ++ [Call.rendererShutdown, Call.deleteEventDispatcher, Call.deleteLogger] := by
  simp [Application.destroy, detach_foldl_trace]

theorem count_onDetach_detachTrace [DecidableEq τ] (layers : List Layer) (l : Layer) :
    (detachTrace layers : List (Call τ)).count (Call.onDetach l) = layers.count l
    ∧ (detachTrace layers : List (Call τ)).count (Call.deleteLayer l) = layers.count l := by
  induction layers with
  | nil => simp [detachTrace]
  | cons x xs ih =>
    by_cases hx : x = l
    · subst hx
      simp [detachTrace, List.count_cons, ih.1, ih.2]
    · have hx2 : (x == l) = false := by simpa using hx
      simp [detachTrace, List.count_cons, ih.1, ih.2, hx, hx2]

theorem count_eq_zero_of_inRunLoop [DecidableEq τ] (added : List (Call τ)) (c : Call τ)
    (hc : c.inRunLoop = false) (h : ∀ x ∈ added, x.inRunLoop = true) : added.count c = 0 := by
  rw [List.count_eq_zero]
  intro hmem
  rw [h c hmem] at hc
  cases hc

/-- The stack after the constructor and a sequence of pushes: the regular
layers in the order pushed, the ImGui overlay, the other overlays in the order
pushed; the application is running and not minimized. -/
theorem constructed_pushAll [Zero τ] (env : Env τ σ) (ndebug : Bool) (appInstance this : Nat)
    (imLayer : Layer) (appEvents : EventDispatcher) (ext : σ) (trace : List (Call τ))
    (a : Nat) (stdout : List String) (w : World τ σ) (ops : List Push)
    (h : Application.new env ndebug appInstance this imLayer appEvents ext trace
      = Construction.constructed a stdout w) :
    (Application.pushAll env ops w).app.layerStack = regulars ops ++ imLayer :: overlays ops
    ∧ (Application.pushAll env ops w).app.overlayBoundary = (regulars ops).length
    ∧ (Application.pushAll env ops w).app.running = true
    ∧ (Application.pushAll env ops w).app.isMinimized = false := by
  obtain ⟨_, happ, _⟩ := Application.new_spec env ndebug appInstance this imLayer appEvents
    ext trace a stdout w h
  obtain ⟨p1, p2, p3, _⟩ := Application.pushAll_app env ops w
  have hs : w.app.stack = { layers := [] ++ [imLayer], overlayBoundary := ([] : List Layer).length } := by
    rw [Application.stack, happ]; rfl
  rw [hs, LayerStack.pushAll_spec] at p1
  have q1 := congrArg LayerStack.layers p1
  have q2 := congrArg LayerStack.overlayBoundary p1
  simp only [Application.stack, List.nil_append, List.singleton_append] at q1 q2
  refine ⟨q1, q2, ?_, ?_⟩
  · rw [p2, happ]
  · rw [p3, happ]

/-! ## Counting the operations of the dispatcher -/

/-- The length of the queue after a sequence of operations that all succeed:
one more per `queueEvent`, one less per `dequeueEvent`. -/
theorem performAll_length (ops : List DispatcherOp) (d d1 : EventDispatcher)
    (outs : List Bool) (h : EventDispatcher.performAll ops d = some (d1, outs)) :
    d1.eventQueue.length + dequeueCount ops = d.eventQueue.length + queueCount ops := by
  induction ops generalizing d outs with
  | nil =>
    simp only [EventDispatcher.performAll, Option.some.injEq, Prod.mk.injEq] at h
    rw [h.1]
    rfl
  | cons op ops ih =>
    simp only [EventDispatcher.performAll] at h
    cases hp : d.perform op with
    | none => rw [hp] at h; cases h
    | some p =>
      obtain ⟨d2, out⟩ := p
      rw [hp] at h
      simp only at h
      cases hr : EventDispatcher.performAll ops d2 with
      | none => rw [hr] at h; cases h
      | some q =>
        obtain ⟨d3, outs2⟩ := q
        rw [hr] at h
        simp only [Option.some.injEq, Prod.mk.injEq] at h
        have hi := ih d2 outs2 (by rw [hr, h.1])
        cases op with
        | queueEvent e =>
          simp only [EventDispatcher.perform, Option.some.injEq, Prod.mk.injEq] at hp
          rw [← hp.1] at hi
          simp only [EventDispatcher.queueEvent, List.length_append, List.length_singleton] at hi
          simp only [queueCount, dequeueCount]
          omega
        | dequeueEvent =>
          simp only [EventDispatcher.perform, EventDispatcher.dequeueEvent] at hp
          cases hq : d.eventQueue with
          | nil => rw [hq] at hp; cases hp
          | cons x xs =>
            rw [hq] at hp
            simp only [Option.some.injEq, Prod.mk.injEq] at hp
            rw [← hp.1] at hi
            simp only [queueCount, dequeueCount, List.length_cons] at hi ⊢
            omega
        | isEmpty =>
          simp only [EventDispatcher.perform, Option.some.injEq, Prod.mk.injEq] at hp
          rw [← hp.1] at hi
          simpa only [queueCount, dequeueCount] using hi

/-! ## Minimized frames -/

/-- A frame that starts minimized: it returns, having made the two finalize
calls only; the flags are kept, the timestamp is the sample, and the queue
still starts with the events it held. -/
theorem runFrame_minimized_spec [Sub τ] (env : Env τ σ) (fuel : Nat) (t : τ) (w : World τ σ)
    (hmin : w.app.isMinimized = true) :
    ∃ r, runFrame env fuel t w = Result.done r
      ∧ r.trace = w.trace ++ [Call.bulkGenerateTextures, Call.bulkGenerateMaterials]
      ∧ r.app = { w.app with lastTime := t }
      ∧ w.appEvents.eventQueue <+: r.appEvents.eventQueue := by
  refine ⟨_, runFrame_minimized env fuel t w hmin, finalizeAssets_trace env _, rfl, ?_⟩
  obtain ⟨q1, e1, -⟩ := call_extends env Call.bulkGenerateTextures
    { w with app := { w.app with lastTime := t } }
  obtain ⟨q2, e2, -⟩ := call_extends env Call.bulkGenerateMaterials
    (call env Call.bulkGenerateTextures { w with app := { w.app with lastTime := t } })
  refine ⟨q1 ++ q2, ?_⟩
  simp only [finalizeAssets]
  rw [e2, e1, List.append_assoc]

theorem minimizedTrace_succ (n : Nat) :
    ([Call.bulkGenerateTextures, Call.bulkGenerateMaterials] : List (Call τ)) ++ minimizedTrace n
      = minimizedTrace (n + 1) := rfl

/-- A running application that is minimized stays so through any number of
frames: `run` uses up every time sample without returning. -/
theorem run_minimized [Sub τ] (env : Env τ σ) (fuel : Nat) (clock : List τ) (w : World τ σ)
    (hmin : w.app.isMinimized = true) (hrun : w.app.running = true) :
    ∃ st, run env fuel clock w = Result.outOfFuel st
      ∧ st.trace = w.trace ++ minimizedTrace clock.length
      ∧ st.app.isMinimized = true ∧ st.app.running = true
      ∧ w.appEvents.eventQueue <+: st.appEvents.eventQueue := by
  induction clock generalizing w with
  | nil =>
    exact ⟨w, by simp [run, hrun], by simp [minimizedTrace], hmin, hrun, List.prefix_refl _⟩
  | cons t ts ih =>
    obtain ⟨r, h1, h2, h3, h4⟩ := runFrame_minimized_spec env fuel t w hmin
    have hm : r.app.isMinimized = true := by rw [h3]; exact hmin
    have hr : r.app.running = true := by rw [h3]; exact hrun
    obtain ⟨st, i1, i2, i3, i4, i5⟩ := ih r hm hr
    refine ⟨st, ?_, ?_, i3, i4, h4.trans i5⟩
    · rw [run_cons env fuel t ts w hrun, h1]
      exact i1
    · rw [i2, h2, List.append_assoc, minimizedTrace_succ]
      rfl

/-! ## The batch buffers -/

theorem foldl_push_eq_append_map {α β : Type} (f : α → β) (xs : List α) (acc : List β) :
    xs.foldl (fun batch x => batch ++ [f x]) acc = acc ++ xs.map f := by
  induction xs generalizing acc with
  | nil => simp
  | cons x xs ih => simp [List.foldl, ih]

/-- The index loops of `buildBatchIBuffer`, mesh by mesh. -/
theorem batchIndicesLoop_eq {V : Type} (meshes : List (Mesh V)) (acc : List Nat) (offset : Nat) :
    (batchIndicesLoop meshes acc offset).1 = acc ++ shiftedIndices meshes offset := by
  induction meshes generalizing acc offset with
  | nil => simp [batchIndicesLoop, shiftedIndices]
  | cons m ms ih =>
    have h := ih (acc ++ m.indices.map (fun index => (index + offset) % 2 ^ 32))
      ((offset + m.indices.length) % 2 ^ 32)
    simp only [batchIndicesLoop, List.foldl, Mesh.getIndices, foldl_push_eq_append_map] at h ⊢
    rw [h, shiftedIndices, List.append_assoc]

theorem shiftedIndices_length {V : Type} (meshes : List (Mesh V)) (offset : Nat) :
    (shiftedIndices meshes offset).length = (meshes.map (fun m => m.indices.length)).sum := by
  induction meshes generalizing offset with
  | nil => rfl
  | cons m ms ih => simp [shiftedIndices, ih]

/-- The vertex loops of `buildBatchVBuffer`: the vertex lists one after the
other. -/
theorem buildBatchVBuffer_eq {V : Type} (meshes : List (Mesh V)) :
    buildBatchVBuffer meshes = (meshes.map (fun m => m.data)).flatten := by
  have h : ∀ (ms : List (Mesh V)) (acc : List V),
      ms.foldl (fun batchData mesh =>
        mesh.getData.foldl (fun batchData vertex => batchData ++ [vertex]) batchData) acc
        = acc ++ (ms.map (fun m => m.data)).flatten := by
    intro ms
    induction ms with
    | nil => intro acc; simp
    | cons m ms ih =>
      intro acc
      have hm := foldl_push_eq_append_map (fun v : V => v) m.data acc
      simp only [List.map_id'] at hm
      rw [List.foldl, ih]
      simp only [Mesh.getData, hm, List.map, List.flatten, List.append_assoc]
  simpa [buildBatchVBuffer] using h meshes []

/-! ## The camera type -/

theorem swap_currentType {φ π : Type} (this : EditorCamera φ π) :
    this.swap.currentType
      = if this.currentType = EditorCameraType.Stationary then EditorCameraType.Free
        else EditorCameraType.Stationary := by
  simp only [EditorCamera.swap, beq_iff_eq]
  split_ifs <;> rfl

/-! ## The claims -/

/-- C1: a frame of `Application::run` that starts with `isMinimized == false`
has exactly the trace: `onUpdate(deltaTime)` on every layer in stack order,
`beginImGui`, `onImGuiRender` on every layer in the same order, `endImGui`,
then for each dequeued event the block (dequeue, `Application::onEvent`, every
layer's `onEvent` in stack order, `deleteEvent`) until the queue is empty, then
the window update and the clear, then the two asset-finalize calls.  The
events dequeued are those queued at the start of the frame followed by those
queued during the frame (none when no collaborator queues); the frame returns
whenever the layers' handlers queue nothing. -/
theorem C1_frame_trace [Sub τ] (env : Env τ σ) (t : τ) (w : World τ σ)
    (hmin : w.app.isMinimized = false) :
    (∀ fuel r, runFrame env fuel t w = Result.done r →
      ∃ queued, r.trace = w.trace
          ++ frameTrace w.app.layerStack (t - w.app.lastTime) (w.appEvents.eventQueue ++ queued)
        ∧ (NoQueueing env → queued = []))
    ∧ (HandlersQuiet env → ∃ fuel r, runFrame env fuel t w = Result.done r)
    ∧ (NoQueueing env →
        ∃ r, runFrame env w.appEvents.eventQueue.length t w = Result.done r
          ∧ r.trace = w.trace
              ++ frameTrace w.app.layerStack (t - w.app.lastTime) w.appEvents.eventQueue) := by
  refine ⟨?_, fun hquiet => runFrame_terminates env hquiet t w, ?_⟩
  · intro fuel r h
    obtain ⟨_, queued, h1, h2, _⟩ := runFrame_active_done env fuel t w r hmin h
    exact ⟨queued, h1, h2⟩
  · intro hq
    obtain ⟨r, hr⟩ := runFrame_terminates_noQueueing env hq t w _ le_rfl
    obtain ⟨_, queued, h1, h2, _⟩ := runFrame_active_done env _ t w r hmin hr
    refine ⟨r, hr, ?_⟩
    rw [h1, h2 hq, List.append_nil]

/-- C1, the instance of the claim: three layers (regular, regular, overlay),
one event queued before the frame; the trace is the one sequence below. -/
theorem C1_frame_trace_witness :
    ∃ r, runFrame (idleEnv (1600, 900)) 1 16
        (mkWorld false [⟨"scene"⟩, ⟨"editor"⟩, ⟨"imgui"⟩] [KeyPressedEvent 65 1])
        = Result.done r
      ∧ r.trace =
        [Call.onUpdate ⟨"scene"⟩ 16, Call.onUpdate ⟨"editor"⟩ 16, Call.onUpdate ⟨"imgui"⟩ 16,
         Call.beginImGui,
         Call.onImGuiRender ⟨"scene"⟩, Call.onImGuiRender ⟨"editor"⟩,
         Call.onImGuiRender ⟨"imgui"⟩,
         Call.endImGui,
         Call.dequeueEvent (KeyPressedEvent 65 1), Call.appOnEvent (KeyPressedEvent 65 1),
         Call.onEvent ⟨"scene"⟩ (KeyPressedEvent 65 1),
         Call.onEvent ⟨"editor"⟩ (KeyPressedEvent 65 1),
         Call.onEvent ⟨"imgui"⟩ (KeyPressedEvent 65 1),
         Call.deleteEvent (KeyPressedEvent 65 1),
         Call.windowOnUpdate, Call.clear,
         Call.bulkGenerateTextures, Call.bulkGenerateMaterials] := by
  obtain ⟨r, h1, h2⟩ := (C1_frame_trace (idleEnv (1600, 900)) 16
    (mkWorld false [⟨"scene"⟩, ⟨"editor"⟩, ⟨"imgui"⟩] [KeyPressedEvent 65 1]) rfl).2.2
    (fun _ _ => rfl)
  exact ⟨r, h1, by rw [h2]; rfl⟩

/-- C2, as the code has it: the drain runs in every frame that does not start
minimized (every event queued at the start of such a frame is dequeued and
given to `Application::onEvent` and to every layer's `onEvent` by the end of
the frame, which is reached whenever the handlers queue nothing); a frame
that starts minimized returns having made only the two asset-finalize calls,
and the events queued at its start are still at the head of the queue. -/
theorem C2_drain_only_when_not_minimized [Sub τ] (env : Env τ σ) (t : τ) (w : World τ σ) :
    (w.app.isMinimized = false →
      (∀ fuel r, runFrame env fuel t w = Result.done r →
        ∃ added, r.trace = w.trace ++ added
          ∧ ∀ e ∈ w.appEvents.eventQueue,
              Call.dequeueEvent e ∈ added ∧ Call.appOnEvent e ∈ added
              ∧ ∀ layer ∈ w.app.layerStack, Call.onEvent layer e ∈ added)
      ∧ (HandlersQuiet env → ∃ fuel r, runFrame env fuel t w = Result.done r))
    ∧ (w.app.isMinimized = true →
        ∀ fuel, ∃ r, runFrame env fuel t w = Result.done r
          ∧ r.trace = w.trace ++ [Call.bulkGenerateTextures, Call.bulkGenerateMaterials]
          ∧ w.appEvents.eventQueue <+: r.appEvents.eventQueue) := by
  refine ⟨fun hmin => ⟨?_, fun hquiet => runFrame_terminates env hquiet t w⟩, ?_⟩
  · intro fuel r h
    obtain ⟨_, queued, h1, _, _⟩ := runFrame_active_done env fuel t w r hmin h
    refine ⟨_, h1, ?_⟩
    intro e he
    obtain ⟨m1, m2, m3, _⟩ := mem_drainTrace (τ := τ) w.app.layerStack
      (w.appEvents.eventQueue ++ queued) e (List.mem_append_left _ he)
    simp only [frameTrace, List.mem_append]
    exact ⟨Or.inl (Or.inr m1), Or.inl (Or.inr m2), fun l hl => Or.inl (Or.inr (m3 l hl))⟩
  · intro hmin fuel
    refine ⟨_, runFrame_minimized env fuel t w hmin, finalizeAssets_trace env _, ?_⟩
    obtain ⟨q1, e1, -⟩ := call_extends env Call.bulkGenerateTextures
      { w with app := { w.app with lastTime := t } }
    obtain ⟨q2, e2, -⟩ := call_extends env Call.bulkGenerateMaterials
      (call env Call.bulkGenerateTextures { w with app := { w.app with lastTime := t } })
    refine ⟨q1 ++ q2, ?_⟩
    simp only [finalizeAssets]
    rw [e2, e1, List.append_assoc]

/-- C2, an instance of each half: a frame that is not minimized delivers the
queued key event, a minimized frame leaves it queued. -/
theorem C2_drain_only_when_not_minimized_witness :
    (∃ fuel r, runFrame (idleEnv (1600, 900)) fuel 16
        (mkWorld false [⟨"scene"⟩] [KeyPressedEvent 65 1]) = Result.done r
      ∧ Call.appOnEvent (KeyPressedEvent 65 1) ∈ r.trace)
    ∧ (∃ r, runFrame (idleEnv (0, 0)) 1 16
        (mkWorld true [⟨"scene"⟩] [KeyPressedEvent 65 1]) = Result.done r
      ∧ r.trace = [Call.bulkGenerateTextures, Call.bulkGenerateMaterials]) := by
  have hA := (C2_drain_only_when_not_minimized (idleEnv (1600, 900)) 16
    (mkWorld false [⟨"scene"⟩] [KeyPressedEvent 65 1])).1 rfl
  have hB := (C2_drain_only_when_not_minimized (idleEnv (0, 0)) 16
    (mkWorld true [⟨"scene"⟩] [KeyPressedEvent 65 1])).2 rfl 1
  constructor
  · obtain ⟨fuel, r, hr⟩ := hA.2 (fun _ _ _ => rfl)
    obtain ⟨added, h1, h2⟩ := hA.1 fuel r hr
    refine ⟨fuel, r, hr, ?_⟩
    rw [h1]
    exact List.mem_append_right _ (h2 (KeyPressedEvent 65 1) (List.mem_singleton.2 rfl)).2.1
  · obtain ⟨r, h1, h2, _⟩ := hB
    exact ⟨r, h1, h2⟩

/-- C2 as stated fails: a frame that starts minimized with a key event queued
returns without dequeuing it; `Application::onEvent` never sees it and it is
still in the queue. -/
theorem C2_counterexample :
    ∃ r, runFrame (idleEnv (0, 0)) 8 16
        (mkWorld true [⟨"scene"⟩] [KeyPressedEvent 65 1]) = Result.done r
      ∧ r.trace = [Call.bulkGenerateTextures, Call.bulkGenerateMaterials]
      ∧ Call.appOnEvent (KeyPressedEvent 65 1) ∉ r.trace
      ∧ r.appEvents.eventQueue = [KeyPressedEvent 65 1] :=
  ⟨_, rfl, rfl, by decide, rfl⟩

/-- C3: in every iteration of the run loop, minimized or not, the
asset-finalize pass is the last step and is executed exactly once: the trace
of a frame that returns ends with `bulkGenerateTextures` then
`bulkGenerateMaterials`, and neither call occurs earlier in the frame.  A
minimized frame always returns; any frame returns when the handlers queue
nothing. -/
theorem C3_finalize_once_last [Sub τ] (env : Env τ σ) (t : τ) (w : World τ σ) :
    (∀ fuel r, runFrame env fuel t w = Result.done r →
      ∃ earlier, r.trace = w.trace ++ earlier
          ++ [Call.bulkGenerateTextures, Call.bulkGenerateMaterials]
        ∧ ∀ c ∈ earlier, c.isFinalize = false)
    ∧ (HandlersQuiet env → ∃ fuel r, runFrame env fuel t w = Result.done r)
    ∧ (w.app.isMinimized = true → ∀ fuel, ∃ r, runFrame env fuel t w = Result.done r) := by
  refine ⟨?_, fun hquiet => runFrame_terminates env hquiet t w,
    fun hmin fuel => ⟨_, runFrame_minimized env fuel t w hmin⟩⟩
  intro fuel r h
  cases hmin : w.app.isMinimized with
  | true =>
    rw [runFrame_minimized env fuel t w hmin] at h
    simp only [Result.done.injEq] at h
    subst h
    exact ⟨[], by simp [finalizeAssets_trace], fun c hc => by cases hc⟩
  | false =>
    obtain ⟨_, queued, h1, _, _⟩ := runFrame_active_done env fuel t w r hmin h
    refine ⟨w.app.layerStack.map (fun layer => Call.onUpdate layer (t - w.app.lastTime))
      ++ [Call.beginImGui]
      ++ w.app.layerStack.map (fun layer => Call.onImGuiRender layer)
      ++ [Call.endImGui]
      ++ drainTrace w.app.layerStack (w.appEvents.eventQueue ++ queued)
      ++ [Call.windowOnUpdate, Call.clear], ?_, ?_⟩
    · rw [h1]
      simp [frameTrace]
    · intro c hc
      simp only [List.mem_append, List.mem_map, List.mem_cons, List.mem_singleton,
        List.not_mem_nil, or_false] at hc
      rcases hc with (((((⟨l, _, rfl⟩ | rfl) | ⟨l, _, rfl⟩) | rfl) | hc) | (rfl | rfl))
      · rfl
      · rfl
      · rfl
      · rfl
      · exact drainTrace_not_finalize _ _ c hc
      · rfl
      · rfl

/-- C3, both kinds of frame on a concrete state: the minimized frame makes
the two finalize calls only, the other frame makes them last. -/
theorem C3_finalize_once_last_witness :
    (∃ r, runFrame (idleEnv (0, 0)) 0 16 (mkWorld true [⟨"scene"⟩] []) = Result.done r
      ∧ ∃ earlier, r.trace = [] ++ earlier
          ++ [Call.bulkGenerateTextures, Call.bulkGenerateMaterials]
        ∧ ∀ c ∈ earlier, c.isFinalize = false)
    ∧ (∃ fuel r, runFrame (idleEnv (1600, 900)) fuel 16
          (mkWorld false [⟨"scene"⟩] [KeyPressedEvent 65 1]) = Result.done r
      ∧ ∃ earlier, r.trace = [] ++ earlier
          ++ [Call.bulkGenerateTextures, Call.bulkGenerateMaterials]
        ∧ ∀ c ∈ earlier, c.isFinalize = false) := by
  have hA := C3_finalize_once_last (idleEnv (0, 0)) 16 (mkWorld true [⟨"scene"⟩] [])
  have hB := C3_finalize_once_last (idleEnv (1600, 900)) 16
    (mkWorld false [⟨"scene"⟩] [KeyPressedEvent 65 1])
  constructor
  · obtain ⟨r, hr⟩ := hA.2.2 rfl 0
    exact ⟨r, hr, hA.1 0 r hr⟩
  · obtain ⟨fuel, r, hr⟩ := hB.2.1 (fun _ _ _ => rfl)
    exact ⟨fuel, r, hr, hB.1 fuel r hr⟩

/-- C4: every event dequeued by `Application::dispatchEvents` is passed first
to `Application::onEvent`, once, then to the `onEvent` of every layer of the
stack, once per entry and in stack order, then released with `deleteEvent`;
the loop itself puts nothing on the queue: after the iteration the queue is
the rest of the old queue followed by what the layer handlers queued, and the
loop goes on from there.  A drain that returns has a trace made of such
blocks only. -/
theorem C4_dispatch_block [DecidableEq τ] (env : Env τ σ) (w : World τ σ) :
    (∀ e rest, w.appEvents.eventQueue = e :: rest →
      ∃ w1, dispatchIteration env w = some w1
        ∧ w1.trace = w.trace ++ ([Call.dequeueEvent e, Call.appOnEvent e]
            ++ w.app.layerStack.map (fun layer => Call.onEvent layer e)
            ++ [Call.deleteEvent e])
        ∧ (eventBlock w.app.layerStack e : List (Call τ)).count (Call.appOnEvent e) = 1
        ∧ (∀ layer, (eventBlock w.app.layerStack e : List (Call τ)).count
              (Call.onEvent layer e) = w.app.layerStack.count layer)
        ∧ (eventBlock w.app.layerStack e : List (Call τ)).count (Call.deleteEvent e) = 1
        ∧ w1.appEvents.eventQueue = rest
            ++ emitted env (w.app.layerStack.map (fun layer => Call.onEvent layer e)) w.ext
        ∧ (HandlersQuiet env → w1.appEvents.eventQueue = rest)
        ∧ ∀ fuel, dispatchEvents env (fuel + 1) w = dispatchEvents env fuel w1)
    ∧ (∀ fuel r, dispatchEvents env fuel w = Result.done r →
        ∃ events, r.trace = w.trace ++ drainTrace w.app.layerStack events
          ∧ dequeued r.trace = dequeued w.trace ++ events) := by
  constructor
  · intro e rest hq
    obtain ⟨w1, h1, h2, _, h4, _⟩ := dispatchIteration_cons env w e rest hq
    have hinj : Function.Injective (fun layer => (Call.onEvent layer e : Call τ)) := by
      intro a b hab
      simpa using hab
    refine ⟨w1, h1, h2, ?_, ?_, ?_, h4, ?_, ?_⟩
    · have : (w.app.layerStack.map (fun layer => (Call.onEvent layer e : Call τ))).count
          (Call.appOnEvent e) = 0 := by
        rw [List.count_eq_zero]
        simp
      simp [eventBlock, List.count_cons, this]
    · intro layer
      have := List.count_map_of_injective w.app.layerStack _ hinj layer
      simp only [eventBlock, List.count_append, this]
      simp [List.count_cons]
    · have : (w.app.layerStack.map (fun layer => (Call.onEvent layer e : Call τ))).count
          (Call.deleteEvent e) = 0 := by
        rw [List.count_eq_zero]
        simp
      simp [eventBlock, List.count_cons, this]
    · intro hquiet
      rw [h4, emitted_onEvent_quiet env hquiet, List.append_nil]
    · intro fuel
      exact dispatchEvents_succ_cons env fuel w w1 e rest hq h1
  · intro fuel r h
    obtain ⟨_, _, more, h3, _, _⟩ := dispatchEvents_done env fuel w r h
    refine ⟨_, h3, ?_⟩
    rw [h3]
    have := dequeued_drainTrace (τ := τ) w.app.layerStack (w.appEvents.eventQueue ++ more)
    simp only [dequeued] at this ⊢
    rw [List.filterMap_append, this]

/-- C4 on a concrete queue: the block of a key event with two layers, and the
close event left at the head of the queue. -/
theorem C4_dispatch_block_witness :
    ∃ w1, dispatchIteration (idleEnv (1600, 900))
        (mkWorld false [⟨"scene"⟩, ⟨"imgui"⟩] [KeyPressedEvent 65 1, WindowCloseEvent]) = some w1
      ∧ w1.trace = [Call.dequeueEvent (KeyPressedEvent 65 1),
          Call.appOnEvent (KeyPressedEvent 65 1),
          Call.onEvent ⟨"scene"⟩ (KeyPressedEvent 65 1),
          Call.onEvent ⟨"imgui"⟩ (KeyPressedEvent 65 1),
          Call.deleteEvent (KeyPressedEvent 65 1)]
      ∧ w1.appEvents.eventQueue = [WindowCloseEvent] := by
  obtain ⟨w1, h1, h2, _, _, _, _, h7, _⟩ := (C4_dispatch_block (idleEnv (1600, 900))
    (mkWorld false [⟨"scene"⟩, ⟨"imgui"⟩] [KeyPressedEvent 65 1, WindowCloseEvent])).1
    (KeyPressedEvent 65 1) [WindowCloseEvent] rfl
  exact ⟨w1, h1, h2, h7 (fun _ _ _ => rfl)⟩

/-- C5: events are delivered in the order they were queued.  After the events
`events` were appended with `queueEvent` to an empty dispatcher, and with
handlers that queue nothing, one call of `dispatchEvents` returns having
dequeued exactly `events` in that order and having given them in that order to
`Application::onEvent` and to every layer of the stack; `dequeueEvent` returns
the oldest event of the queue however many events were queued after it. -/
theorem C5_fifo (env : Env τ σ) (hquiet : HandlersQuiet env) (w : World τ σ)
    (events : List Event)
    (hw : w.appEvents = events.foldl EventDispatcher.queueEvent { eventQueue := [] }) :
    (∃ r, dispatchEvents env events.length w = Result.done r
      ∧ r.trace = w.trace ++ drainTrace w.app.layerStack events
      ∧ dequeued r.trace = dequeued w.trace ++ events
      ∧ deliveredToApp r.trace = deliveredToApp w.trace ++ events
      ∧ ∀ layer, w.app.layerStack.count layer = 1 →
          deliveredTo layer r.trace = deliveredTo layer w.trace ++ events)
    ∧ (∀ (d : EventDispatcher) (first : Event) (rest later : List Event),
        d.eventQueue = first :: rest →
        (later.foldl EventDispatcher.queueEvent d).dequeueEvent
          = some (first, { eventQueue := rest ++ later })) := by
  have hq : w.appEvents.eventQueue = events := by
    rw [hw, queueEvent_foldl_eventQueue]; rfl
  constructor
  · obtain ⟨r, hr⟩ := dispatchEvents_terminates env hquiet events.length w (by rw [hq])
    obtain ⟨_, _, more, h3, h4, _⟩ := dispatchEvents_done env _ w r hr
    rw [h4 hquiet, List.append_nil, hq] at h3
    refine ⟨r, hr, h3, ?_, ?_, ?_⟩
    · have := dequeued_drainTrace (τ := τ) w.app.layerStack events
      simp only [dequeued] at this ⊢
      rw [h3, List.filterMap_append, this]
    · have := deliveredToApp_drainTrace (τ := τ) w.app.layerStack events
      simp only [deliveredToApp] at this ⊢
      rw [h3, List.filterMap_append, this]
    · intro layer hc
      have := deliveredTo_drainTrace (τ := τ) layer w.app.layerStack events hc
      simp only [deliveredTo] at this ⊢
      rw [h3, List.filterMap_append, this]
  · intro d first rest later hd
    have := queueEvent_foldl_eventQueue later d
    simp only [EventDispatcher.dequeueEvent, this, hd, List.cons_append]

/-- C5 on three events queued one after the other: they reach the
application and the layer in the order queued. -/
theorem C5_fifo_witness :
    ∃ r, dispatchEvents (idleEnv (1600, 900)) 3
        { mkWorld false [⟨"scene"⟩] [] with
          appEvents := ((EventDispatcher.mk []).queueEvent (KeyPressedEvent 65 1)).queueEvent
            (GuiEvent 0) |>.queueEvent (KeyPressedEvent 66 1) } = Result.done r
      ∧ deliveredToApp r.trace = [KeyPressedEvent 65 1, GuiEvent 0, KeyPressedEvent 66 1]
      ∧ deliveredTo ⟨"scene"⟩ r.trace
          = [KeyPressedEvent 65 1, GuiEvent 0, KeyPressedEvent 66 1] := by
  obtain ⟨r, h1, _, _, h4, h5⟩ := (C5_fifo (idleEnv (1600, 900)) (fun _ _ _ => rfl)
    { mkWorld false [⟨"scene"⟩] [] with
      appEvents := ((EventDispatcher.mk []).queueEvent (KeyPressedEvent 65 1)).queueEvent
        (GuiEvent 0) |>.queueEvent (KeyPressedEvent 66 1) }
    [KeyPressedEvent 65 1, GuiEvent 0, KeyPressedEvent 66 1] rfl).1
  exact ⟨r, h1, h4, h5 ⟨"scene"⟩ (by decide)⟩

/-- C6: dispatch is exhaustive.  Whatever the queue holds when
`Application::dispatchEvents` is entered, when it returns the queue is empty
(`isEmpty()` is true) and every event that was queued at entry has been given
to `Application::onEvent` and to every layer.  Whatever the handlers do, one
iteration per event queued at entry is enough for all of these to have been
delivered, without ever dequeuing from an empty queue; and the call returns
after that many iterations when the handlers queue nothing. -/
theorem C6_dispatch_exhaustive (env : Env τ σ) (w : World τ σ) :
    (∀ fuel r, dispatchEvents env fuel w = Result.done r →
      r.appEvents.isEmpty = true
      ∧ ∃ added, r.trace = w.trace ++ added
        ∧ ∀ e ∈ w.appEvents.eventQueue, Call.appOnEvent e ∈ added
            ∧ ∀ layer ∈ w.app.layerStack, Call.onEvent layer e ∈ added)
    ∧ (∀ fuel, w.appEvents.eventQueue.length ≤ fuel →
        ∃ st added, (dispatchEvents env fuel w).state? = some st
          ∧ st.trace = w.trace ++ added
          ∧ ∀ e ∈ w.appEvents.eventQueue, Call.appOnEvent e ∈ added
              ∧ ∀ layer ∈ w.app.layerStack, Call.onEvent layer e ∈ added)
    ∧ (HandlersQuiet env →
        ∃ r, dispatchEvents env w.appEvents.eventQueue.length w = Result.done r) := by
  refine ⟨?_, ?_, fun hquiet => dispatchEvents_terminates env hquiet _ w le_rfl⟩
  · intro fuel r h
    obtain ⟨h1, _, more, h3, _, _⟩ := dispatchEvents_done env fuel w r h
    refine ⟨(isEmpty_iff _).2 h1, _, h3, ?_⟩
    intro e he
    obtain ⟨_, m2, m3, _⟩ := mem_drainTrace (τ := τ) w.app.layerStack
      (w.appEvents.eventQueue ++ more) e (List.mem_append_left _ he)
    exact ⟨m2, m3⟩
  · intro fuel hfuel
    obtain ⟨st, more, h1, _, h3⟩ := dispatchEvents_progress env fuel w
    rw [List.take_of_length_le hfuel, List.append_assoc] at h3
    refine ⟨st, _, h1, h3, ?_⟩
    intro e he
    obtain ⟨_, m2, m3, _⟩ := mem_drainTrace (τ := τ) w.app.layerStack
      w.appEvents.eventQueue e he
    exact ⟨List.mem_append_left _ m2, fun l hl => List.mem_append_left _ (m3 l hl)⟩

/-- C6 on a queue of two events and handlers that queue nothing: the call
returns with an empty queue. -/
theorem C6_dispatch_exhaustive_witness :
    ∃ r, dispatchEvents (idleEnv (1600, 900)) 2
        (mkWorld false [⟨"scene"⟩] [KeyPressedEvent 65 1, GuiEvent 1]) = Result.done r
      ∧ r.appEvents.isEmpty = true := by
  have h := C6_dispatch_exhaustive (idleEnv (1600, 900))
    (mkWorld false [⟨"scene"⟩] [KeyPressedEvent 65 1, GuiEvent 1])
  obtain ⟨r, hr⟩ := h.2.2 (fun _ _ _ => rfl)
  exact ⟨r, hr, (h.1 _ r hr).1⟩

/-- C7: the loop condition of the drain is evaluated again in every
iteration.  When the layer handlers queue events while the event `e` at the
head of the queue is dispatched, these events are dequeued and dispatched by
the same call of `dispatchEvents`, after `e` and after the events that were
queued behind `e` at that moment: as soon as the fuel covers them, the trace
reached continues with the blocks of `e`, of the rest of the queue and of the
newly queued events, in this order, and a call that returns has them all. -/
theorem C7_queued_during_dispatch (env : Env τ σ) (w : World τ σ) (e : Event)
    (rest : List Event) (hq : w.appEvents.eventQueue = e :: rest) :
    (∀ fuel, 1 + rest.length
          + (emitted env (w.app.layerStack.map (fun layer => Call.onEvent layer e)) w.ext).length
          ≤ fuel →
      ∃ st more, (dispatchEvents env fuel w).state? = some st
        ∧ st.trace = w.trace ++ drainTrace w.app.layerStack (e :: rest
            ++ emitted env (w.app.layerStack.map (fun layer => Call.onEvent layer e)) w.ext)
          ++ more)
    ∧ (∀ fuel r, dispatchEvents env fuel w = Result.done r →
        r.appEvents.eventQueue = []
        ∧ ∃ later, r.trace = w.trace ++ drainTrace w.app.layerStack (e :: rest
            ++ emitted env (w.app.layerStack.map (fun layer => Call.onEvent layer e)) w.ext
            ++ later)) := by
  obtain ⟨w1, h1, h2, h3, h4, _⟩ := dispatchIteration_cons env w e rest hq
  have he : w.appEvents.isEmpty = false := by simp [EventDispatcher.isEmpty, hq]
  constructor
  · intro fuel hfuel
    obtain ⟨n, rfl⟩ : ∃ n, fuel = n + 1 := ⟨fuel - 1, by omega⟩
    rw [dispatchEvents_succ_cons env n w w1 e rest hq h1]
    obtain ⟨st, more, i1, _, i3⟩ := dispatchEvents_progress env n w1
    have hlen : w1.appEvents.eventQueue.length ≤ n := by
      rw [h4, List.length_append]; omega
    rw [List.take_of_length_le hlen, h2, h3, h4] at i3
    refine ⟨st, more, i1, ?_⟩
    rw [i3]
    simp [drainTrace]
  · intro fuel r h
    cases fuel with
    | zero => simp [dispatchEvents, he] at h
    | succ n =>
      rw [dispatchEvents_succ_cons env n w w1 e rest hq h1] at h
      obtain ⟨i1, _, later, i3, _, _⟩ := dispatchEvents_done env n w1 r h
      refine ⟨i1, later, ?_⟩
      rw [i3, h2, h3, h4]
      simp [drainTrace]

/-- C7 on a concrete run: the layer `editor` queues a `GuiEvent` while the key
press is dispatched; the same call dispatches the key press, the resize that
was queued behind it, and then the new `GuiEvent`, and returns. -/
theorem C7_queued_during_dispatch_witness :
    ∃ r, dispatchEvents requeueEnv 3
        (mkWorld false [⟨"scene"⟩, ⟨"editor"⟩] [KeyPressedEvent 65 1, WindowResizeEvent 800 600])
        = Result.done r
      ∧ r.appEvents.eventQueue = []
      ∧ dequeued r.trace = [KeyPressedEvent 65 1, WindowResizeEvent 800 600, GuiEvent 0] := by
  have h := (C7_queued_during_dispatch requeueEnv
    (mkWorld false [⟨"scene"⟩, ⟨"editor"⟩] [KeyPressedEvent 65 1, WindowResizeEvent 800 600])
    (KeyPressedEvent 65 1) [WindowResizeEvent 800 600] rfl).2 3 _ rfl
  exact ⟨_, rfl, h.1, by decide⟩

/-- C8: after `Application::onEvent` handles an event of type
`WindowResizeEvent`, `isMinimized` is true exactly when the width or the
height the window reports is zero, whatever the flag was before. -/
theorem C8_resize_recomputes_minimized (env : Env τ σ) (w : World τ σ) (e : Event)
    (x y : Int) (he : e.getType = EventType.WindowResizeEvent)
    (hs : env.getSize w.ext = (x, y)) :
    (Application.onEvent env e w).app.isMinimized = true ↔ (x = 0 ∨ y = 0) := by
  simp only [Application.onEvent, Application.onWindowResize, Application.close, he, hs,
    beq_self_eq_true, if_true]
  have hne : (EventType.WindowResizeEvent == EventType.WindowCloseEvent) = false := by decide
  simp only [hne, Bool.false_eq_true, if_false]
  by_cases hx : x = 0
  · simp [hx]
  · by_cases hy : y = 0
    · simp [hy]
    · simp [hx, hy]

/-- C8 on two windows: a window of width zero sets the flag that was false,
a window of 1600 by 900 clears the flag that was true. -/
theorem C8_resize_recomputes_minimized_witness :
    (Application.onEvent (idleEnv (0, 900)) (WindowResizeEvent 0 900)
        (mkWorld false [] [])).app.isMinimized = true
    ∧ ¬ (Application.onEvent (idleEnv (1600, 900)) (WindowResizeEvent 1600 900)
        (mkWorld true [] [])).app.isMinimized = true :=
  ⟨(C8_resize_recomputes_minimized (idleEnv (0, 900)) (mkWorld false [] [])
      (WindowResizeEvent 0 900) 0 900 rfl rfl).2 (Or.inl rfl),
   fun h => absurd ((C8_resize_recomputes_minimized (idleEnv (1600, 900)) (mkWorld true [] [])
      (WindowResizeEvent 1600 900) 1600 900 rfl rfl).1 h) (by decide)⟩

/-- C9 as stated fails: `Application::onWindowResize` reads the size from the
window, not from the event.  With a window that reports 800 by 600, handling a
`WindowResizeEvent` constructed with width 0 and height 0 leaves `isMinimized`
false, also when it was true before. -/
theorem C9_counterexample :
    (Application.onEvent (idleEnv (800, 600)) (WindowResizeEvent 0 0)
        (mkWorld false [] [])).app.isMinimized = false
    ∧ (Application.onEvent (idleEnv (800, 600)) (WindowResizeEvent 0 0)
        (mkWorld true [] [])).app.isMinimized = false :=
  ⟨rfl, rfl⟩

/-- C9, as the code has it: in every application state whose window reports
the size (0, 0), after `Application::onEvent` handles a `WindowResizeEvent`
constructed with width 0 and height 0, `isMinimized` is true; the width and
height the event was constructed with are not read. -/
theorem C9_resize_with_zero_window (env : Env τ σ) (w : World τ σ)
    (hs : env.getSize w.ext = (0, 0)) :
    (Application.onEvent env (WindowResizeEvent 0 0) w).app.isMinimized = true
    ∧ ∀ width height, Application.onEvent env (WindowResizeEvent width height) w
        = Application.onEvent env (WindowResizeEvent 0 0) w := by
  constructor
  · have hr : (WindowResizeEvent 0 0).getType = EventType.WindowResizeEvent := rfl
    have hne : (EventType.WindowResizeEvent == EventType.WindowCloseEvent) = false := by decide
    simp [Application.onEvent, Application.onWindowResize, hr, hs, hne]
  · intro width height
    rfl

/-- C9 on a window that reports (0, 0), starting from a flag that is false. -/
theorem C9_resize_with_zero_window_witness :
    (Application.onEvent (idleEnv (0, 0)) (WindowResizeEvent 0 0)
        (mkWorld false [] [])).app.isMinimized = true :=
  (C9_resize_with_zero_window (idleEnv (0, 0)) (mkWorld false [] []) rfl).1

/-- C10: a resize that minimizes takes effect in the next frame.  If frame N
starts with `isMinimized == false` and ends with `isMinimized == true`, then
its drain handled a resize event, frame N still ran every layer's `onUpdate`
and `onImGuiRender` before the drain and the window update and the clear after
it, and frame N+1 makes the two asset-finalize calls only, leaving the flag
set. -/
theorem C10_minimize_next_frame [Sub τ] (env : Env τ σ) (fuel : Nat) (t : τ)
    (w r : World τ σ) (hmin : w.app.isMinimized = false)
    (h : runFrame env fuel t w = Result.done r) (hr : r.app.isMinimized = true) :
    (∃ queued, r.trace = w.trace
        ++ (w.app.layerStack.map (fun layer => Call.onUpdate layer (t - w.app.lastTime))
          ++ [Call.beginImGui]
          ++ w.app.layerStack.map (fun layer => Call.onImGuiRender layer)
          ++ [Call.endImGui]
          ++ drainTrace w.app.layerStack (w.appEvents.eventQueue ++ queued)
          ++ [Call.windowOnUpdate, Call.clear,
              Call.bulkGenerateTextures, Call.bulkGenerateMaterials])
      ∧ ∃ e ∈ w.appEvents.eventQueue ++ queued, e.getType = EventType.WindowResizeEvent)
    ∧ ∀ fuel2 t2, ∃ r2, runFrame env fuel2 t2 r = Result.done r2
        ∧ r2.trace = r.trace ++ [Call.bulkGenerateTextures, Call.bulkGenerateMaterials]
        ∧ r2.app.isMinimized = true := by
  obtain ⟨_, queued, h1, _, h3⟩ := runFrame_active_done env fuel t w r hmin h
  constructor
  · refine ⟨queued, h1, ?_⟩
    rcases h3 with h3 | h3
    · rw [hr] at h3; cases h3
    · exact h3
  · intro fuel2 t2
    exact ⟨_, runFrame_minimized env fuel2 t2 r hr, finalizeAssets_trace env _, hr⟩

/-- C10 on a concrete run: a window of size (0, 0) and a resize event queued
before frame N; frame N makes every call of a full frame, frame N+1 only the
two finalize calls. -/
theorem C10_minimize_next_frame_witness :
    ∃ r r2, runFrame (idleEnv (0, 0)) 1 16
        (mkWorld false [⟨"scene"⟩] [WindowResizeEvent 0 0]) = Result.done r
      ∧ r.app.isMinimized = true
      ∧ r.trace = [Call.onUpdate ⟨"scene"⟩ 16, Call.beginImGui, Call.onImGuiRender ⟨"scene"⟩,
          Call.endImGui,
          Call.dequeueEvent (WindowResizeEvent 0 0), Call.appOnEvent (WindowResizeEvent 0 0),
          Call.onEvent ⟨"scene"⟩ (WindowResizeEvent 0 0),
          Call.deleteEvent (WindowResizeEvent 0 0),
          Call.windowOnUpdate, Call.clear,
          Call.bulkGenerateTextures, Call.bulkGenerateMaterials]
      ∧ runFrame (idleEnv (0, 0)) 1 33 r = Result.done r2
      ∧ r2.trace = r.trace ++ [Call.bulkGenerateTextures, Call.bulkGenerateMaterials] := by
  obtain ⟨r2, h1, h2, _⟩ := (C10_minimize_next_frame (idleEnv (0, 0)) 1 16
    (mkWorld false [⟨"scene"⟩] [WindowResizeEvent 0 0]) _ rfl rfl rfl).2 1 33
  exact ⟨_, r2, rfl, rfl, rfl, h1, h2⟩

/-- C11: close is cooperative.  `Application::onEvent` on a close event sets
`running` to false.  In a frame of a running application that does not start
minimized and returns, every dequeued event has its block of calls, also those
behind a close event, and the window update, the clear and the asset finalize
follow; if a close event was among the dequeued events then `running` is false
after the frame and `Application::run` returns the state of the end of this
frame, starting no other frame, however many time samples remain; with no
close event `running` stays true.  The frame returns whenever the handlers
queue nothing. -/
theorem C11_close_cooperative [Sub τ] (env : Env τ σ) (fuel : Nat) (t : τ) (w : World τ σ)
    (hrun : w.app.running = true) (hmin : w.app.isMinimized = false) :
    (∀ (v : World τ σ) (e : Event), e.getType = EventType.WindowCloseEvent →
        (Application.onEvent env e v).app.running = false)
    ∧ (∀ r, runFrame env fuel t w = Result.done r →
        ∃ queued, r.trace = w.trace
            ++ frameTrace w.app.layerStack (t - w.app.lastTime)
                (w.appEvents.eventQueue ++ queued)
          ∧ ((∃ e ∈ w.appEvents.eventQueue ++ queued,
                e.getType = EventType.WindowCloseEvent) →
              r.app.running = false
              ∧ ∀ clock, run env fuel (t :: clock) w = Result.done r)
          ∧ ((∀ e ∈ w.appEvents.eventQueue ++ queued,
                e.getType ≠ EventType.WindowCloseEvent) → r.app.running = true))
    ∧ (HandlersQuiet env → ∃ fuel2 r, runFrame env fuel2 t w = Result.done r) := by
  refine ⟨?_, ?_, fun hquiet => runFrame_terminates env hquiet t w⟩
  · intro v e he
    rw [onEvent_running, he]
    simp
  · intro r h
    obtain ⟨_, queued, h1, h2⟩ := runFrame_active_flags env fuel t w r hmin h
    rw [hrun, Bool.true_and] at h2
    refine ⟨queued, h1, ?_, ?_⟩
    · rintro ⟨e, he, het⟩
      have hr : r.app.running = false := by
        rw [h2, List.all_eq_false]
        exact ⟨e, he, by simp [het]⟩
      refine ⟨hr, fun clock => ?_⟩
      rw [run_cons env fuel t clock w hrun, h]
      exact run_stopped env fuel clock r hr
    · intro hall
      rw [h2, List.all_eq_true]
      intro e he
      simpa using hall e he

/-- C11 on a concrete run: a close event queued in front of a key event, three
time samples left.  `run` returns after one frame in which both events were
dispatched and the window update and the finalize calls were made. -/
theorem C11_close_cooperative_witness :
    ∃ r, run (idleEnv (1600, 900)) 2 [16, 33, 50]
        (mkWorld false [⟨"scene"⟩] [WindowCloseEvent, KeyPressedEvent 65 1]) = Result.done r
      ∧ r.app.running = false
      ∧ r.trace = [Call.onUpdate ⟨"scene"⟩ 16, Call.beginImGui, Call.onImGuiRender ⟨"scene"⟩,
          Call.endImGui,
          Call.dequeueEvent WindowCloseEvent, Call.appOnEvent WindowCloseEvent,
          Call.onEvent ⟨"scene"⟩ WindowCloseEvent, Call.deleteEvent WindowCloseEvent,
          Call.dequeueEvent (KeyPressedEvent 65 1), Call.appOnEvent (KeyPressedEvent 65 1),
          Call.onEvent ⟨"scene"⟩ (KeyPressedEvent 65 1),
          Call.deleteEvent (KeyPressedEvent 65 1),
          Call.windowOnUpdate, Call.clear,
          Call.bulkGenerateTextures, Call.bulkGenerateMaterials] := by
  obtain ⟨queued, h1, h2, _⟩ := (C11_close_cooperative (idleEnv (1600, 900)) 2 16
    (mkWorld false [⟨"scene"⟩] [WindowCloseEvent, KeyPressedEvent 65 1]) rfl rfl).2.1 _ rfl
  obtain ⟨h3, h4⟩ := h2 ⟨WindowCloseEvent,
    List.mem_append_left queued (List.mem_cons_self _ _), rfl⟩
  exact ⟨_, h4 [33, 50], h3, rfl⟩

/-- C12, what the code does: the `assert` in the constructor tests
`appInstance != nullptr` inside the branch where that holds, so it passes.  A
second construction (static pointer 1, new object at 2) prints the message and
then goes on: the object is built and `appInstance` is replaced by the new
address.  No call of the constructor aborts, with or without `NDEBUG`. -/
theorem C12_second_construction_goes_on :
    (∃ w, Application.new (idleEnv (1600, 900)) false 1 2 ⟨"imgui"⟩
        EventDispatcher.getInstance () []
      = Construction.constructed 2
          ["Already have an instance of the application. Aborting"] w)
    ∧ ∀ (env : Env Int Unit) (ndebug : Bool) (appInstance this : Nat) (imLayer : Layer)
        (appEvents : EventDispatcher) (trace : List (Call Int)),
        ∃ stdout w, Application.new env ndebug appInstance this imLayer appEvents () trace
          = Construction.constructed this stdout w := by
  refine ⟨⟨_, rfl⟩, ?_⟩
  intro env ndebug appInstance this imLayer appEvents trace
  have key : (appInstance != nullptr
      && !assertPasses ndebug (appInstance != nullptr)) = false := by
    cases hn : (appInstance != nullptr) <;> simp [assertPasses]
  simp only [Application.new, key, Bool.false_eq_true, if_false]
  exact ⟨_, _, rfl⟩

/-- C13: `Application::onEvent` has two reactions only.  An event that is
neither a resize nor a close event changes nothing in the application; a
resize event does not change `running`; a close event does not change
`isMinimized`. -/
theorem C13_onEvent_two_reactions (env : Env τ σ) (w : World τ σ) (e : Event) :
    (e.getType ≠ EventType.WindowResizeEvent → e.getType ≠ EventType.WindowCloseEvent →
      Application.onEvent env e w = w)
    ∧ (e.getType = EventType.WindowResizeEvent →
        (Application.onEvent env e w).app.running = w.app.running)
    ∧ (e.getType = EventType.WindowCloseEvent →
        (Application.onEvent env e w).app.isMinimized = w.app.isMinimized) := by
  refine ⟨?_, ?_, ?_⟩
  · intro h1 h2
    simp [Application.onEvent, h1, h2]
  · intro h
    rw [onEvent_running, h]
    simp
  · intro h
    rcases onEvent_isMinimized_or env e w with h2 | h2
    · exact h2
    · rw [h] at h2; cases h2

/-- C13 on the key event of the claim, on a resize event and on a close
event. -/
theorem C13_onEvent_two_reactions_witness :
    Application.onEvent (idleEnv (0, 0)) (KeyPressedEvent 65 1) (mkWorld false [] [])
      = mkWorld false [] []
    ∧ (Application.onEvent (idleEnv (0, 0)) (WindowResizeEvent 0 0)
        (mkWorld false [] [])).app.running = true
    ∧ (Application.onEvent (idleEnv (0, 0)) WindowCloseEvent
        (mkWorld true [] [])).app.isMinimized = true :=
  ⟨(C13_onEvent_two_reactions (idleEnv (0, 0)) (mkWorld false [] [])
      (KeyPressedEvent 65 1)).1 (by decide) (by decide),
   (C13_onEvent_two_reactions (idleEnv (0, 0)) (mkWorld false [] [])
      (WindowResizeEvent 0 0)).2.1 rfl,
   (C13_onEvent_two_reactions (idleEnv (0, 0)) (mkWorld true [] [])
      WindowCloseEvent).2.2 rfl⟩

/-- C14: in every frame that returns, the timestamp stored is the sampled
time, and in a frame that is not minimized every layer's `onUpdate` receives
the same value, the sampled time minus the timestamp stored before, nothing
else being done to it.  The constructor leaves the timestamp at 0, so in the
first frame every layer receives the first sampled time.  Over consecutive
frames there is one delta per frame, the deltas sum to the timestamp after the
last frame minus the one before the first, and the timestamp after the last
frame is the last sampled time (time in any commutative group, that is in
exact arithmetic). -/
theorem C14_delta_time [AddCommGroup τ] (env : Env τ σ) (fuel : Nat) (w : World τ σ) :
    (∀ t r, runFrame env fuel t w = Result.done r →
      r.app.lastTime = t
      ∧ (w.app.isMinimized = false →
          ∃ later, r.trace = w.trace
            ++ w.app.layerStack.map (fun layer => Call.onUpdate layer (t - w.app.lastTime))
            ++ later))
    ∧ (∀ ndebug appInstance this imLayer appEvents ext trace a stdout,
        Application.new env ndebug appInstance this imLayer appEvents ext trace
          = Construction.constructed a stdout w →
        w.app.lastTime = 0
        ∧ ∀ t r, runFrame env fuel t w = Result.done r →
            ∃ later, r.trace = w.trace ++ [Call.onUpdate imLayer t] ++ later)
    ∧ (∀ samples deltas r, runFrames env fuel samples w = some (deltas, r) →
        deltas.length = samples.length
        ∧ deltas.sum = r.app.lastTime - w.app.lastTime
        ∧ ∀ hne : samples ≠ [], r.app.lastTime = samples.getLast hne) := by
  have hframe : ∀ t r, runFrame env fuel t w = Result.done r →
      w.app.isMinimized = false →
      ∃ later, r.trace = w.trace
        ++ w.app.layerStack.map (fun layer => Call.onUpdate layer (t - w.app.lastTime))
        ++ later := by
    intro t r h hmin
    obtain ⟨_, queued, h1, _⟩ := runFrame_active_flags env fuel t w r hmin h
    refine ⟨[Call.beginImGui]
      ++ w.app.layerStack.map (fun layer => Call.onImGuiRender layer)
      ++ [Call.endImGui]
      ++ drainTrace w.app.layerStack (w.appEvents.eventQueue ++ queued)
      ++ [Call.windowOnUpdate, Call.clear, Call.bulkGenerateTextures,
          Call.bulkGenerateMaterials], ?_⟩
    rw [h1]
    simp [frameTrace]
  refine ⟨fun t r h => ⟨runFrame_lastTime env fuel t w r h, hframe t r h⟩, ?_,
    fun samples deltas r h => runFrames_sum env fuel samples w r deltas h⟩
  intro ndebug appInstance this imLayer appEvents ext trace a stdout hnew
  obtain ⟨_, happ, _⟩ := Application.new_spec env ndebug appInstance this imLayer appEvents
    ext trace a stdout w hnew
  have h0 : w.app.lastTime = 0 := by rw [happ]
  refine ⟨h0, ?_⟩
  intro t r h
  obtain ⟨later, hl⟩ := hframe t r h (by rw [happ])
  refine ⟨later, ?_⟩
  rw [hl, h0, sub_zero, happ]
  rfl

/-- C14 on three frames sampled at 16, 33 and 50 from timestamp 0: the deltas
are 16, 17, 17, their sum is 50, and the timestamp ends at 50. -/
theorem C14_delta_time_witness :
    ∃ r, runFrames (idleEnv (1600, 900)) 0 [16, 33, 50] (mkWorld false [⟨"scene"⟩] [])
        = some ([16, 17, 17], r)
      ∧ ([16, 17, 17] : List Int).sum = r.app.lastTime - 0
      ∧ r.app.lastTime = 50 := by
  obtain ⟨_, h2, h3⟩ := (C14_delta_time (idleEnv (1600, 900)) 0
    (mkWorld false [⟨"scene"⟩] [])).2.2 [16, 33, 50] [16, 17, 17] _ rfl
  exact ⟨_, rfl, h2, h3 (by simp)⟩

/-- C15: the run loop never dequeues from an empty queue.  After an
`isEmpty()` that returned false, `dequeueEvent` has an event to return; the
body of the drain loop fails only on an empty queue, which the loop condition
excludes; so, for every layer stack, every behaviour of the handlers and every
amount of fuel, neither `dispatchEvents` nor a frame nor `run` ends in the
empty-dequeue fault. -/
theorem C15_no_empty_dequeue [Sub τ] (env : Env τ σ) (fuel : Nat) (w : World τ σ) :
    (w.appEvents.isEmpty = false → ∃ e rest, w.appEvents.dequeueEvent = some (e, rest))
    ∧ (dispatchIteration env w = none ↔ w.appEvents.isEmpty = true)
    ∧ dispatchEvents env fuel w ≠ Result.fault
    ∧ (∀ t, runFrame env fuel t w ≠ Result.fault)
    ∧ (∀ clock, run env fuel clock w ≠ Result.fault) := by
  refine ⟨?_, ?_, dispatchEvents_ne_fault env fuel w,
    fun t => runFrame_ne_fault env fuel t w, fun clock => run_ne_fault env fuel clock w⟩
  · intro he
    cases hq : w.appEvents.eventQueue with
    | nil => rw [(isEmpty_iff _).2 hq] at he; cases he
    | cons e rest => exact ⟨e, ⟨rest⟩, by simp [EventDispatcher.dequeueEvent, hq]⟩
  · cases hq : w.appEvents.eventQueue with
    | nil =>
      simp [dispatchIteration, EventDispatcher.dequeueEvent, hq, EventDispatcher.isEmpty]
    | cons e rest =>
      rw [dispatchIteration_eq env w e rest hq]
      simp [EventDispatcher.isEmpty, hq]

/-- C15 on a queue of one event: the dequeue that follows the test returns
that event. -/
theorem C15_no_empty_dequeue_witness :
    ∃ e rest, (mkWorld false [] [KeyPressedEvent 65 1]).appEvents.dequeueEvent
      = some (e, rest) :=
  (C15_no_empty_dequeue (idleEnv (1600, 900)) 1 (mkWorld false [] [KeyPressedEvent 65 1])).1 rfl

/-- C16: `Application::pushLayer` and `Application::pushOverlay` first hand the
layer to the stack and then call its `onAttach`, once; the layer is in the
stack afterwards.  Neither `run` nor `dispatchEvents` (returned or still
running) makes an `onAttach` call, `onEvent` and `close` make no call at all;
so after a push of `layer` and any run of the loop the trace has one more
`onAttach` of `layer` than before the push. -/
theorem C16_attach_on_push [Sub τ] [DecidableEq τ] (env : Env τ σ) (layer : Layer)
    (w : World τ σ) :
    ((Application.pushLayer env layer w).trace
        = w.trace ++ [Call.stackPushLayer layer, Call.onAttach layer]
      ∧ layer ∈ (Application.pushLayer env layer w).app.layerStack)
    ∧ ((Application.pushOverlay env layer w).trace
        = w.trace ++ [Call.stackPushOverlay layer, Call.onAttach layer]
      ∧ layer ∈ (Application.pushOverlay env layer w).app.layerStack)
    ∧ (∀ fuel clock st, (run env fuel clock w).state? = some st →
        ∃ added, st.trace = w.trace ++ added ∧ ∀ c ∈ added, ∀ l, c ≠ Call.onAttach l)
    ∧ (∀ fuel st, (dispatchEvents env fuel w).state? = some st →
        ∃ added, st.trace = w.trace ++ added ∧ ∀ c ∈ added, ∀ l, c ≠ Call.onAttach l)
    ∧ (∀ e, (Application.onEvent env e w).trace = w.trace)
    ∧ (Application.close w).trace = w.trace
    ∧ (∀ fuel clock st,
        (run env fuel clock (Application.pushLayer env layer w)).state? = some st →
        st.trace.count (Call.onAttach layer) = w.trace.count (Call.onAttach layer) + 1)
    ∧ (∀ fuel clock st,
        (run env fuel clock (Application.pushOverlay env layer w)).state? = some st →
        st.trace.count (Call.onAttach layer) = w.trace.count (Call.onAttach layer) + 1) := by
  have hno : ∀ added : List (Call τ), (∀ c ∈ added, c.inRunLoop = true) →
      ∀ c ∈ added, ∀ l, c ≠ Call.onAttach l := by
    intro added h c hc l hl
    have := h c hc
    rw [hl] at this
    cases this
  refine ⟨⟨pushLayer_trace env layer w, ?_⟩, ⟨pushOverlay_trace env layer w, ?_⟩,
    ?_, ?_, fun e => onEvent_trace env e w, rfl, ?_, ?_⟩
  · rw [pushLayer_app]
    simp [LayerStack.pushLayer]
  · rw [pushOverlay_app]
    simp [LayerStack.pushOverlay]
  · intro fuel clock st h
    obtain ⟨added, h1, h2⟩ := run_state_trace env fuel clock w st h
    exact ⟨added, h1, hno added h2⟩
  · intro fuel st h
    obtain ⟨_, events, h1⟩ := dispatchEvents_state_trace env fuel w st h
    exact ⟨_, h1, hno _ (drainTrace_inRunLoop _ _)⟩
  · intro fuel clock st h
    obtain ⟨added, h1, h2⟩ := run_state_trace env fuel clock _ st h
    rw [h1, pushLayer_trace, List.count_append, List.count_append,
      count_eq_zero_of_inRunLoop added (Call.onAttach layer) rfl h2]
    simp [List.count_cons]
  · intro fuel clock st h
    obtain ⟨added, h1, h2⟩ := run_state_trace env fuel clock _ st h
    rw [h1, pushOverlay_trace, List.count_append, List.count_append,
      count_eq_zero_of_inRunLoop added (Call.onAttach layer) rfl h2]
    simp [List.count_cons]

/-- C16 on a concrete application: a layer pushed on a stack that holds the
ImGui overlay, then one frame with a queued event; `onAttach` of the layer is
in the trace once. -/
theorem C16_attach_on_push_witness :
    (Application.pushLayer (idleEnv (1600, 900)) ⟨"scene"⟩
        (mkWorld false [⟨"imgui"⟩] [KeyPressedEvent 65 1])).trace
      = [Call.stackPushLayer ⟨"scene"⟩, Call.onAttach ⟨"scene"⟩]
    ∧ ∃ st, (run (idleEnv (1600, 900)) 1 [16]
          (Application.pushLayer (idleEnv (1600, 900)) ⟨"scene"⟩
            (mkWorld false [⟨"imgui"⟩] [KeyPressedEvent 65 1]))).state? = some st
        ∧ st.trace.count (Call.onAttach ⟨"scene"⟩) = 1 := by
  have h := C16_attach_on_push (idleEnv (1600, 900)) ⟨"scene"⟩
    (mkWorld false [⟨"imgui"⟩] [KeyPressedEvent 65 1])
  exact ⟨h.1.1, _, rfl, h.2.2.2.2.2.2.1 1 [16] _ rfl⟩

/-- C17: `Application::~Application` calls `onDetach` on every layer of the
stack and deletes it, layer after layer in stack order, once per entry of the
stack, then shuts the renderer down, then deletes the dispatcher and the logs.
The ImGui overlay pushed by the constructor is in the stack whatever was
pushed afterwards.  No `onDetach` call is made by `run`, by the pushes or by
the constructor. -/
theorem C17_detach_on_teardown [Sub τ] [Zero τ] [DecidableEq τ] (env : Env τ σ)
    (w : World τ σ) :
    (Application.destroy env w).trace = w.trace ++ detachTrace w.app.layerStack
        ++ [Call.rendererShutdown, Call.deleteEventDispatcher, Call.deleteLogger]
    ∧ (∀ l, (detachTrace w.app.layerStack : List (Call τ)).count (Call.onDetach l)
          = w.app.layerStack.count l
        ∧ (detachTrace w.app.layerStack : List (Call τ)).count (Call.deleteLayer l)
          = w.app.layerStack.count l)
    ∧ (∀ ndebug appInstance this imLayer appEvents ext trace a stdout ops,
        Application.new env ndebug appInstance this imLayer appEvents ext trace
          = Construction.constructed a stdout w →
        imLayer ∈ (Application.pushAll env ops w).app.layerStack
        ∧ ∀ l, Call.onDetach l ∉ w.trace.drop trace.length)
    ∧ (∀ fuel clock st, (run env fuel clock w).state? = some st →
        ∃ added, st.trace = w.trace ++ added ∧ ∀ c ∈ added, ∀ l, c ≠ Call.onDetach l)
    ∧ (∀ layer l, Call.onDetach l ∉ [Call.stackPushLayer layer, (Call.onAttach layer : Call τ)]
        ∧ (Application.pushLayer env layer w).trace
            = w.trace ++ [Call.stackPushLayer layer, Call.onAttach layer]
        ∧ Call.onDetach l ∉ [Call.stackPushOverlay layer, (Call.onAttach layer : Call τ)]
        ∧ (Application.pushOverlay env layer w).trace
            = w.trace ++ [Call.stackPushOverlay layer, Call.onAttach layer]) := by
  refine ⟨destroy_trace env w, fun l => count_onDetach_detachTrace _ l, ?_, ?_, ?_⟩
  · intro ndebug appInstance this imLayer appEvents ext trace a stdout ops h
    obtain ⟨h1, _, _, _⟩ := constructed_pushAll env ndebug appInstance this imLayer appEvents
      ext trace a stdout w ops h
    obtain ⟨_, _, h3⟩ := Application.new_spec env ndebug appInstance this imLayer appEvents
      ext trace a stdout w h
    refine ⟨by rw [h1]; simp, ?_⟩
    intro l
    rw [h3, List.drop_left]
    simp
  · intro fuel clock st h
    obtain ⟨added, h1, h2⟩ := run_state_trace env fuel clock w st h
    refine ⟨added, h1, ?_⟩
    intro c hc l hl
    have := h2 c hc
    rw [hl] at this
    cases this
  · intro layer l
    exact ⟨by simp, pushLayer_trace env layer w, by simp, pushOverlay_trace env layer w⟩

/-- C17 on a stack of a regular layer and the ImGui overlay: the trace of the
teardown. -/
theorem C17_detach_on_teardown_witness :
    (Application.destroy (idleEnv (1600, 900))
        (mkWorld false [⟨"scene"⟩, ⟨"imgui"⟩] [])).trace
      = [Call.onDetach ⟨"scene"⟩, Call.deleteLayer ⟨"scene"⟩,
         Call.onDetach ⟨"imgui"⟩, Call.deleteLayer ⟨"imgui"⟩,
         Call.rendererShutdown, Call.deleteEventDispatcher, Call.deleteLogger]
    ∧ ∃ w, Application.new (idleEnv (1600, 900)) false 0 1 ⟨"imgui"⟩
          EventDispatcher.getInstance () [] = Construction.constructed 1 [] w
        ∧ (⟨"imgui"⟩ : Layer) ∈ (Application.pushAll (idleEnv (1600, 900))
          [Push.layer ⟨"scene"⟩] w).app.layerStack :=
  ⟨(C17_detach_on_teardown (idleEnv (1600, 900))
      (mkWorld false [⟨"scene"⟩, ⟨"imgui"⟩] [])).1,
   _, rfl,
   ((C17_detach_on_teardown (idleEnv (1600, 900)) _).2.2.1 false 0 1 ⟨"imgui"⟩
      EventDispatcher.getInstance () [] 1 [] [Push.layer ⟨"scene"⟩] rfl).1⟩

/-- C18: the stack stays partitioned.  Any sequence of pushes on an empty
`LayerStack` leaves the regular layers in the order pushed followed by the
overlays in the order pushed, the boundary at the number of regular layers.
After the constructor and any sequence of pushes on the application, the stack
holds the regular layers, then the ImGui overlay, then the overlays pushed
later; a frame from there visits the layers in this order for `onUpdate`,
`onImGuiRender` and `onEvent`. -/
theorem C18_stack_partition [Sub τ] [Zero τ] (env : Env τ σ) (ops : List Push) :
    LayerStack.pushAll ops { layers := [], overlayBoundary := 0 }
      = { layers := regulars ops ++ overlays ops, overlayBoundary := (regulars ops).length }
    ∧ ∀ ndebug appInstance this imLayer appEvents ext trace a stdout (w : World τ σ),
        Application.new env ndebug appInstance this imLayer appEvents ext trace
          = Construction.constructed a stdout w →
        (Application.pushAll env ops w).app.layerStack
          = regulars ops ++ imLayer :: overlays ops
        ∧ (Application.pushAll env ops w).app.overlayBoundary = (regulars ops).length
        ∧ ∀ fuel t r, runFrame env fuel t (Application.pushAll env ops w) = Result.done r →
            ∃ queued, r.trace = (Application.pushAll env ops w).trace
              ++ frameTrace (regulars ops ++ imLayer :: overlays ops)
                  (t - (Application.pushAll env ops w).app.lastTime)
                  ((Application.pushAll env ops w).appEvents.eventQueue ++ queued) := by
  constructor
  · have h := LayerStack.pushAll_spec ops [] []
    simpa using h
  · intro ndebug appInstance this imLayer appEvents ext trace a stdout w hnew
    obtain ⟨h1, h2, _, h4⟩ := constructed_pushAll env ndebug appInstance this imLayer
      appEvents ext trace a stdout w ops hnew
    refine ⟨h1, h2, ?_⟩
    intro fuel t r hr
    obtain ⟨_, queued, h5, _⟩ := runFrame_active_done env fuel t _ r h4 hr
    rw [h1] at h5
    exact ⟨queued, h5⟩

/-- C18 on a concrete start: the constructor pushes the ImGui overlay, then two
regular layers and one overlay are pushed; the overlay of the constructor
comes after both regular layers. -/
theorem C18_stack_partition_witness :
    ∃ w, Application.new (idleEnv (1600, 900)) false 0 1 ⟨"imgui"⟩
        EventDispatcher.getInstance () [] = Construction.constructed 1 [] w
      ∧ (Application.pushAll (idleEnv (1600, 900))
          [Push.layer ⟨"scene"⟩, Push.overlay ⟨"debug"⟩, Push.layer ⟨"editor"⟩] w).app.layerStack
        = [⟨"scene"⟩, ⟨"editor"⟩, ⟨"imgui"⟩, ⟨"debug"⟩] :=
  ⟨_, rfl, ((C18_stack_partition (idleEnv (1600, 900))
    [Push.layer ⟨"scene"⟩, Push.overlay ⟨"debug"⟩, Push.layer ⟨"editor"⟩]).2
    false 0 1 ⟨"imgui"⟩ EventDispatcher.getInstance () [] 1 [] _ rfl).1⟩

/-- C19: `EventDispatcher::isEmpty` is a pure observation.  Any number of
`isEmpty` calls in a row leaves the dispatcher as it was and returns the same
value each time; and after any sequence of operations on a fresh dispatcher
(none of them a dequeue from an empty queue) `isEmpty` is true exactly when the
sequence has as many `queueEvent` calls as `dequeueEvent` calls. -/
theorem C19_isEmpty_pure (d : EventDispatcher) :
    (∀ n, EventDispatcher.performAll (List.replicate n DispatcherOp.isEmpty) d
        = some (d, List.replicate n d.isEmpty))
    ∧ (∀ ops d1 outs,
        EventDispatcher.performAll ops EventDispatcher.getInstance = some (d1, outs) →
        (d1.isEmpty = true ↔ queueCount ops = dequeueCount ops)) := by
  constructor
  · intro n
    induction n with
    | zero => rfl
    | succ n ih =>
      simp only [List.replicate_succ, EventDispatcher.performAll, EventDispatcher.perform, ih]
      rfl
  · intro ops d1 outs h
    have hl := performAll_length ops _ d1 outs h
    simp only [EventDispatcher.getInstance, List.length_nil, Nat.zero_add] at hl
    rw [isEmpty_iff, ← List.length_eq_zero]
    omega

/-- C19 on a concrete sequence: two events queued, the queue observed twice,
both events dequeued, the queue observed twice again. -/
theorem C19_isEmpty_pure_witness :
    ∃ d1, EventDispatcher.performAll
        [DispatcherOp.queueEvent (KeyPressedEvent 65 1), DispatcherOp.queueEvent (GuiEvent 0),
         DispatcherOp.isEmpty, DispatcherOp.isEmpty,
         DispatcherOp.dequeueEvent, DispatcherOp.dequeueEvent,
         DispatcherOp.isEmpty, DispatcherOp.isEmpty]
        EventDispatcher.getInstance = some (d1, [false, false, true, true])
      ∧ d1.isEmpty = true :=
  ⟨_, rfl, ((C19_isEmpty_pure EventDispatcher.getInstance).2
    [DispatcherOp.queueEvent (KeyPressedEvent 65 1), DispatcherOp.queueEvent (GuiEvent 0),
     DispatcherOp.isEmpty, DispatcherOp.isEmpty,
     DispatcherOp.dequeueEvent, DispatcherOp.dequeueEvent,
     DispatcherOp.isEmpty, DispatcherOp.isEmpty] _ [false, false, true, true] rfl).2 rfl⟩

/-- C20: a failed creation of the graphics context ends the process.  The
constructor called with a null window handle exits with `EXIT_FAILURE` and
returns no object; `init` exits with `EXIT_FAILURE` when the loader fails and
returns no object with a `contextInfo`.  With a non-null handle the
constructor returns the object holding the handle, and with a successful
loader `init` returns the object with its `contextInfo` set. -/
theorem C20_context_failure_exits (genWindow : Nat) (loaded : Bool)
    (vendor renderer version : String) (this : GraphicsContext) :
    (genWindow = nullptr →
      GraphicsContext.new genWindow
        = Exit.exited EXIT_FAILURE ["Window was nullptr, aborting."])
    ∧ (loaded = false →
        GraphicsContext.init loaded vendor renderer version this
          = Exit.exited EXIT_FAILURE ["Failed to load a graphics context!"])
    ∧ (genWindow ≠ nullptr →
        GraphicsContext.new genWindow
          = Exit.returned { glfwWindowRef := genWindow, contextInfo := "" } [])
    ∧ (loaded = true →
        ∃ ctx stdout, GraphicsContext.init loaded vendor renderer version this
            = Exit.returned ctx stdout
          ∧ ctx.glfwWindowRef = this.glfwWindowRef
          ∧ ctx.contextInfo = "Graphics device vendor: " ++ vendor
              ++ "\nGraphics device: " ++ renderer
              ++ "\nGraphics context version: " ++ version) := by
  refine ⟨?_, ?_, ?_, ?_⟩
  · intro h
    simp [GraphicsContext.new, h]
  · intro h
    simp [GraphicsContext.init, h]
  · intro h
    simp [GraphicsContext.new, h]
  · intro h
    subst h
    exact ⟨_, _, rfl, rfl, rfl⟩

/-- C20 on the two failures and on the two successes. -/
theorem C20_context_failure_exits_witness :
    GraphicsContext.new 0 = Exit.exited 1 ["Window was nullptr, aborting."]
    ∧ GraphicsContext.init false "v" "r" "4.6" { glfwWindowRef := 7, contextInfo := "" }
        = Exit.exited 1 ["Failed to load a graphics context!"]
    ∧ GraphicsContext.new 7 = Exit.returned { glfwWindowRef := 7, contextInfo := "" } []
    ∧ ∃ ctx stdout,
        GraphicsContext.init true "v" "r" "4.6" { glfwWindowRef := 7, contextInfo := "" }
          = Exit.returned ctx stdout
        ∧ ctx.glfwWindowRef = 7 := by
  have hA := C20_context_failure_exits 0 false "v" "r" "4.6"
    { glfwWindowRef := 7, contextInfo := "" }
  have hB := C20_context_failure_exits 7 true "v" "r" "4.6"
    { glfwWindowRef := 7, contextInfo := "" }
  obtain ⟨ctx, stdout, h1, h2, _⟩ := hB.2.2.2 rfl
  exact ⟨hA.1 rfl, hA.2.1 rfl, hB.2.2.1 (by decide), ctx, stdout, h1, h2⟩

/-- C21, what the code does: the sum `start + newDataSize` is computed in
32-bit unsigned arithmetic, so the assertion of `UniformBuffer::setData` and of
`ShaderStorageBuffer::setData` tests the wrapped sum.  With `start` 4294967295
and `newDataSize` 2 on a buffer of 16 bytes the wrapped sum is 1: the
assertion passes, the write at offset 4294967295 is issued and `filled`
becomes true, though the sum 4294967297 exceeds 16.  In general the assertion
passes exactly when the sum modulo 2^32 is at most `dataSize`. -/
theorem C21_setData_sum_wraps :
    UniformBuffer.setData false 4294967295 2 { bufferID := 1, dataSize := 16, filled := false }
      = some ({ bufferID := 1, dataSize := 16, filled := true },
          [GLCall.bindBuffer GLTarget.uniformBuffer 1,
           GLCall.bufferSubData GLTarget.uniformBuffer 4294967295 2,
           GLCall.bindBuffer GLTarget.uniformBuffer 0])
    ∧ ShaderStorageBuffer.setData false 4294967295 2
        { bufferID := 1, dataSize := 16, filled := false }
      = some ({ bufferID := 1, dataSize := 16, filled := true },
          [GLCall.bindBuffer GLTarget.shaderStorageBuffer 1,
           GLCall.bufferSubData GLTarget.shaderStorageBuffer 4294967295 2,
           GLCall.bindBuffer GLTarget.shaderStorageBuffer 0])
    ∧ ¬ (4294967295 + 2 ≤ 16)
    ∧ (∀ (start newDataSize : Nat) (this : UniformBuffer),
        (UniformBuffer.setData false start newDataSize this).isSome = true
          ↔ (start + newDataSize) % 2 ^ 32 ≤ this.dataSize)
    ∧ (∀ (start newDataSize : Nat) (this : ShaderStorageBuffer),
        (ShaderStorageBuffer.setData false start newDataSize this).isSome = true
          ↔ (start + newDataSize) % 2 ^ 32 ≤ this.dataSize) := by
  refine ⟨by decide, by decide, by decide, ?_, ?_⟩
  · intro start newDataSize this
    simp only [UniformBuffer.setData, assertPasses, Bool.false_or]
    by_cases h : (start + newDataSize) % 2 ^ 32 ≤ this.dataSize
    · simp [h, Nat.not_lt.2 h]
    · simp [h, Nat.lt_of_not_le h]
  · intro start newDataSize this
    simp only [ShaderStorageBuffer.setData, assertPasses, Bool.false_or]
    by_cases h : (start + newDataSize) % 2 ^ 32 ≤ this.dataSize
    · simp [h, Nat.not_lt.2 h]
    · simp [h, Nat.lt_of_not_le h]

/-- C22, what the code does: after each mesh `buildBatchIBuffer` raises the
offset by the number of indices of the mesh, not by its number of vertices.
For a quad (4 vertices, 6 indices) followed by a triangle the batched indices
of the triangle are 6, 7, 8 where the vertex offset gives 4, 5, 6; in the
batched vertex list of 7 vertices the index 6 is the last vertex of the
triangle and the indices 7 and 8 refer to no vertex.  In general the batched
indices are the indices of each mesh shifted by the number of indices before
it (in 32-bit arithmetic), the batched vertices are the meshes' vertices in
order, and the batched index count is the sum of the index counts. -/
theorem C22_batch_offset_counts_indices :
    buildBatchIBuffer [quadMesh, triangleMesh] = [0, 1, 2, 2, 3, 0, 6, 7, 8]
    ∧ vertexShiftedIndices [quadMesh, triangleMesh] 0 = [0, 1, 2, 2, 3, 0, 4, 5, 6]
    ∧ buildBatchVBuffer [quadMesh, triangleMesh] = ["q0", "q1", "q2", "q3", "t0", "t1", "t2"]
    ∧ (buildBatchVBuffer [quadMesh, triangleMesh])[6]? = some "t2"
    ∧ (buildBatchVBuffer [quadMesh, triangleMesh])[7]? = none
    ∧ triangleMesh.data[0]? = some "t0"
    ∧ (∀ (V : Type) (meshes : List (Mesh V)),
        buildBatchIBuffer meshes = shiftedIndices meshes 0
        ∧ buildBatchVBuffer meshes = (meshes.map (fun m => m.data)).flatten
        ∧ (buildBatchIBuffer meshes).length = (meshes.map (fun m => m.indices.length)).sum) := by
  refine ⟨by decide, by decide, by decide, by decide, by decide, by decide, ?_⟩
  intro V meshes
  have h : buildBatchIBuffer meshes = shiftedIndices meshes 0 := by
    rw [buildBatchIBuffer, batchIndicesLoop_eq, List.nil_append]
  exact ⟨h, buildBatchVBuffer_eq meshes, by rw [h, shiftedIndices_length]⟩

/-- C23: minimized is absorbing for the run loop as coded.  A frame that
starts with `isMinimized == true` returns having made the two asset-finalize
calls and no other call (no layer hook, no dequeue, no `Application::onEvent`,
no window update); `isMinimized` is still true, `running` is unchanged and the
queue still starts with every event it held.  So a running, minimized
application stays running and minimized through any number of frames: `run`
uses up every time sample without returning. -/
theorem C23_minimized_absorbing [Sub τ] (env : Env τ σ) (fuel : Nat) (w : World τ σ)
    (hmin : w.app.isMinimized = true) :
    (∀ t, ∃ r, runFrame env fuel t w = Result.done r
      ∧ r.trace = w.trace ++ [Call.bulkGenerateTextures, Call.bulkGenerateMaterials]
      ∧ r.app.isMinimized = true
      ∧ r.app.running = w.app.running
      ∧ w.appEvents.eventQueue <+: r.appEvents.eventQueue)
    ∧ (w.app.running = true →
        ∀ clock, ∃ st, run env fuel clock w = Result.outOfFuel st
          ∧ st.trace = w.trace ++ minimizedTrace clock.length
          ∧ st.app.isMinimized = true ∧ st.app.running = true
          ∧ w.appEvents.eventQueue <+: st.appEvents.eventQueue) := by
  constructor
  · intro t
    obtain ⟨r, h1, h2, h3, h4⟩ := runFrame_minimized_spec env fuel t w hmin
    exact ⟨r, h1, h2, by rw [h3]; exact hmin, by rw [h3], h4⟩
  · intro hrun clock
    exact run_minimized env fuel clock w hmin hrun

/-- C23 on a minimized application with a resize event queued and three time
samples: three frames of finalize calls, the event still queued, `run` not
returned. -/
theorem C23_minimized_absorbing_witness :
    ∃ st, run (idleEnv (1600, 900)) 4 [16, 33, 50]
        (mkWorld true [⟨"scene"⟩] [WindowResizeEvent 1600 900]) = Result.outOfFuel st
      ∧ st.trace = [Call.bulkGenerateTextures, Call.bulkGenerateMaterials,
          Call.bulkGenerateTextures, Call.bulkGenerateMaterials,
          Call.bulkGenerateTextures, Call.bulkGenerateMaterials]
      ∧ st.app.isMinimized = true
      ∧ st.appEvents.eventQueue = [WindowResizeEvent 1600 900] := by
  obtain ⟨st, h1, h2, h3, _, _⟩ := (C23_minimized_absorbing (idleEnv (1600, 900)) 4
    (mkWorld true [⟨"scene"⟩] [WindowResizeEvent 1600 900]) rfl).2 rfl [16, 33, 50]
  have hst : Result.outOfFuel st = run (idleEnv (1600, 900)) 4 [16, 33, 50]
      (mkWorld true [⟨"scene"⟩] [WindowResizeEvent 1600 900]) := h1.symm
  refine ⟨st, h1, h2, h3, ?_⟩
  have hq : ∀ r, Result.outOfFuel st = Result.outOfFuel r → st = r := by
    intro r hr
    cases hr
    rfl
  rw [hq _ hst]
  rfl

/-- C24: the camera type is a two-state toggle.  `swap` turns Stationary into
Free and Free into Stationary, and two swaps restore the type.  `onMouseClick`
changes the type only for the right button on a stationary camera, to Free;
`onMouseReleased` only for the right button on a camera that is not
stationary, to Stationary; for any other button both leave the camera as it
is.  A click then a release of the right button leave the camera Stationary,
and `onEvent` passes click and release events to these two handlers. -/
theorem C24_camera_toggle {φ π : Type} (env : CameraEnv π) (this : EditorCamera φ π) :
    (this.currentType = EditorCameraType.Stationary →
        this.swap.currentType = EditorCameraType.Free)
    ∧ (this.currentType = EditorCameraType.Free →
        this.swap.currentType = EditorCameraType.Stationary)
    ∧ this.swap.swap.currentType = this.currentType
    ∧ (∀ e, (this.onMouseClick env e).currentType
        = if e.getButton = env.SR_MOUSE_BUTTON_RIGHT
            ∧ this.currentType = EditorCameraType.Stationary
          then EditorCameraType.Free else this.currentType)
    ∧ (∀ e, (this.onMouseReleased env e).currentType
        = if e.getButton = env.SR_MOUSE_BUTTON_RIGHT
            ∧ this.currentType ≠ EditorCameraType.Stationary
          then EditorCameraType.Stationary else this.currentType)
    ∧ (∀ e, e.getButton ≠ env.SR_MOUSE_BUTTON_RIGHT →
        this.onMouseClick env e = this ∧ this.onMouseReleased env e = this)
    ∧ (∀ e1 e2, e1.getButton = env.SR_MOUSE_BUTTON_RIGHT →
        e2.getButton = env.SR_MOUSE_BUTTON_RIGHT →
        ((this.onMouseClick env e1).onMouseReleased env e2).currentType
          = EditorCameraType.Stationary)
    ∧ (∀ button, this.onEvent env (MouseClickEvent button)
          = this.onMouseClick env (MouseClickEvent button)
        ∧ this.onEvent env (MouseReleasedEvent button)
          = this.onMouseReleased env (MouseReleasedEvent button)) := by
  have hclick : ∀ (c : EditorCamera φ π) e, (c.onMouseClick env e).currentType
      = if e.getButton = env.SR_MOUSE_BUTTON_RIGHT
          ∧ c.currentType = EditorCameraType.Stationary
        then EditorCameraType.Free else c.currentType := by
    intro c e
    by_cases hb : e.getButton = env.SR_MOUSE_BUTTON_RIGHT
    · by_cases hs : c.currentType = EditorCameraType.Stationary
      · simp [EditorCamera.onMouseClick, EditorCamera.isStationary, hb, hs, swap_currentType]
      · simp [EditorCamera.onMouseClick, EditorCamera.isStationary, hb, hs]
    · simp [EditorCamera.onMouseClick, hb]
  have hrel : ∀ (c : EditorCamera φ π) e, (c.onMouseReleased env e).currentType
      = if e.getButton = env.SR_MOUSE_BUTTON_RIGHT
          ∧ c.currentType ≠ EditorCameraType.Stationary
        then EditorCameraType.Stationary else c.currentType := by
    intro c e
    by_cases hb : e.getButton = env.SR_MOUSE_BUTTON_RIGHT
    · by_cases hs : c.currentType = EditorCameraType.Stationary
      · simp [EditorCamera.onMouseReleased, EditorCamera.isStationary, hb, hs]
      · simp [EditorCamera.onMouseReleased, EditorCamera.isStationary, hb, hs,
          swap_currentType]
    · simp [EditorCamera.onMouseReleased, hb]
  refine ⟨?_, ?_, ?_, hclick this, hrel this, ?_, ?_, ?_⟩
  · intro h
    rw [swap_currentType, if_pos h]
  · intro h
    rw [swap_currentType, h]
    rfl
  · rw [swap_currentType, swap_currentType]
    cases h : this.currentType <;> simp
  · intro e hb
    constructor
    · simp [EditorCamera.onMouseClick, hb]
    · simp [EditorCamera.onMouseReleased, hb]
  · intro e1 e2 h1 h2
    rw [hrel, hclick]
    cases h : this.currentType <;> simp [h1, h2]
  · intro button
    exact ⟨rfl, rfl⟩

/-- C24 on a stationary camera: a right click makes it Free, the release of
the right button makes it Stationary again, a left click changes nothing. -/
theorem C24_camera_toggle_witness :
    ((mkCamera EditorCameraType.Stationary).onMouseClick glfwCameraEnv
        (MouseClickEvent 1)).currentType = EditorCameraType.Free
    ∧ (((mkCamera EditorCameraType.Stationary).onMouseClick glfwCameraEnv
        (MouseClickEvent 1)).onMouseReleased glfwCameraEnv
          (MouseReleasedEvent 1)).currentType = EditorCameraType.Stationary
    ∧ ((mkCamera EditorCameraType.Stationary).onMouseClick glfwCameraEnv
        (MouseClickEvent 0)).currentType = EditorCameraType.Stationary := by
  have h := C24_camera_toggle glfwCameraEnv (mkCamera EditorCameraType.Stationary)
  refine ⟨?_, h.2.2.2.2.2.2.1 (MouseClickEvent 1) (MouseReleasedEvent 1) rfl rfl, ?_⟩
  · rw [h.2.2.2.1]
    rfl
  · rw [(h.2.2.2.2.2.1 (MouseClickEvent 0) (by decide)).1]
    rfl

end Strontium
